import Mathlib

/-!
Verification of the social-media-graph module (`socialmediagraphs.py`).

The embedding models the Python program shallowly:
* Python values that appear as node identifiers and attribute values become
  `PyVal`; attribute dictionaries become ordered association lists (`Attrs`).
* The networkx `DiGraph` is a simple directed graph: one node entry per id
  (re-adding a node updates its attribute dict in place) and at most one edge
  per ordered `(src, dst)` pair (re-adding an edge overwrites its attributes).
  `add_edge` auto-creates absent endpoints with an empty attribute dict.
* Fallible Python code (dict subscripts raising `KeyError`, `.lower()` on a
  non-string raising `AttributeError`, using an unassigned local raising
  `UnboundLocalError`, …) is modelled with `Except PyError`.
* Python floats are modelled by `ℚ`; the scores that arise are small integer
  combinations, exact in either representation.
-/

namespace SMG

/-- A (flat) Python value: `None`, a string, an integer, or a list of id
strings (the shapes that occur as node ids and as the leaves of the input
records). -/
inductive PyVal where
  | none : PyVal
  | str : String → PyVal
  | int : Int → PyVal
  | strList : List String → PyVal
deriving DecidableEq, Repr

/-- A Python object stored in a record field or node attribute: either a flat
value or a (string-keyed) dictionary of flat values (the `attributes`
sub-dictionary of a user record). -/
inductive PyObj where
  | val : PyVal → PyObj
  | dict : List (String × PyVal) → PyObj
deriving DecidableEq, Repr

/-- The Python exceptions the module can raise, plus the three error classes
named by the specification (`DuplicateNodeError`, `MalformedEntityError`,
`InvalidRankingModeError`), so that claims about them are statable.  The
source file defines none of the latter three. -/
inductive PyError where
  | keyError : String → PyError
  | typeError : PyError
  | attributeError : PyError
  | unboundLocalError : PyError
  | duplicateNodeError : PyError
  | malformedEntityError : String → PyError
  | invalidRankingModeError : PyError
deriving DecidableEq, Repr

/-- An ordered Python dictionary with string keys: the attribute dict of a
graph node, and also an input record (`users[id]`, `posts[id]`,
`comments[id]`). -/
abbrev Attrs := List (String × PyObj)

/-- An input record (`users[id] = {...}` etc.): same shape as an attribute
dict. -/
abbrev Rec := Attrs

/-- `match r with | ok x => k x | error e => error e`: the sequencing of two
fallible Python steps. -/
def bindE (r : Except PyError α) (k : α → Except PyError β) : Except PyError β :=
  match r with
  | .ok x => k x
  | .error e => .error e

/-- Python `d[k]` on a record/dict: the first binding of `k`, else
`KeyError(k)`. -/
def getF (r : Rec) (k : String) : Except PyError PyObj :=
  match r.find? (fun p => p.1 == k) with
  | some p => .ok p.2
  | Option.none => .error (.keyError k)

/-- Python `o[k]` where `o` should be the nested `attributes` dictionary:
subscripting a non-dict raises `TypeError`, a missing key raises
`KeyError`. -/
def subF (o : PyObj) (k : String) : Except PyError PyObj :=
  match o with
  | .dict d =>
    match d.find? (fun p => p.1 == k) with
    | some p => .ok (.val p.2)
    | Option.none => .error (.keyError k)
  | .val _ => .error .typeError

/-- Using a Python object as a networkx node id: dictionaries are unhashable
(`TypeError`); every flat value is usable. -/
def asId (o : PyObj) : Except PyError PyVal :=
  match o with
  | .val v => .ok v
  | .dict _ => .error .typeError

/-- Python iteration `for x in o`: a list yields its elements, a string its
characters, a dict its keys; `None` and integers are not iterable. -/
def iterIds (o : PyObj) : Except PyError (List PyVal) :=
  match o with
  | .val (.strList l) => .ok (l.map PyVal.str)
  | .val (.str s) => .ok (s.toList.map (fun c => PyVal.str (String.mk [c])))
  | .dict d => .ok (d.map (fun p => PyVal.str p.1))
  | .val .none => .error .typeError
  | .val (.int _) => .error .typeError

/-- Python `len(o)`: length of a list, string or dict; `TypeError`
otherwise. -/
def pyLen (o : PyObj) : Except PyError Nat :=
  match o with
  | .val (.strList l) => .ok l.length
  | .val (.str s) => .ok s.length
  | .dict d => .ok d.length
  | .val .none => .error .typeError
  | .val (.int _) => .error .typeError

/-- Python `attributes.get(k)` (default `None`). -/
def pyGet (a : Attrs) (k : String) : PyObj :=
  match a.find? (fun p => p.1 == k) with
  | some p => p.2
  | Option.none => .val .none

/-- Python `attributes.get(k, d)` (explicit default). -/
def pyGetD (a : Attrs) (k : String) (d : PyObj) : PyObj :=
  match a.find? (fun p => p.1 == k) with
  | some p => p.2
  | Option.none => d

/-- Python `old.update(new)` on a dict: bindings of existing keys are
overwritten in place (keeping their position), new keys are appended in
order. -/
def dictUpdate (old new : Attrs) : Attrs :=
  (old.map (fun p =>
    match new.find? (fun q => q.1 == p.1) with
    | some q => (p.1, q.2)
    | Option.none => p))
  ++ new.filter (fun q => !(old.any (fun p => p.1 == q.1)))

/-- The networkx `DiGraph`: insertion-ordered node list (unique ids by
construction) and edge list with at most one edge per ordered `(src, dst)`
pair; each edge carries its `connection_type` string. -/
structure Graph where
  nodes : List (PyVal × Attrs)
  edges : List (PyVal × PyVal × String)
deriving DecidableEq, Repr

/-- `graph.nodes[id]` as an optional lookup. -/
def lookupNode (g : Graph) (id : PyVal) : Option Attrs :=
  (g.nodes.find? (fun p => p.1 == id)).map (fun p => p.2)

/-- networkx `G.add_node(id, **attrs)`: a fresh id is appended; an existing
id has its attribute dict updated in place (no error, no new entry). -/
def addNode (g : Graph) (id : PyVal) (a : Attrs) : Graph :=
  if g.nodes.any (fun p => p.1 == id) then
    { g with nodes := g.nodes.map (fun p => if p.1 == id then (p.1, dictUpdate p.2 a) else p) }
  else
    { g with nodes := g.nodes ++ [(id, a)] }

/-- networkx auto-creation of an absent edge endpoint: a node with an empty
attribute dict is appended. -/
def ensureNode (g : Graph) (id : PyVal) : Graph :=
  if g.nodes.any (fun p => p.1 == id) then g
  else { g with nodes := g.nodes ++ [(id, [])] }

/-- networkx `G.add_edge(u, v, connection_type=ct)`: absent endpoints are
auto-created; an existing `(u, v)` edge has its attributes overwritten in
place (a `DiGraph` keeps at most one edge per ordered pair), otherwise the
edge is appended. -/
def addEdge (g : Graph) (u v : PyVal) (ct : String) : Graph :=
  let g2 := ensureNode (ensureNode g u) v
  if g2.edges.any (fun e => e.1 == u && e.2.1 == v) then
    { g2 with edges := g2.edges.map (fun e => if e.1 == u && e.2.1 == v then (u, v, ct) else e) }
  else
    { g2 with edges := g2.edges ++ [(u, v, ct)] }

/-- The `for` loop of a builder phase: process entries left to right, abort
on the first exception. -/
def foldE (f : Graph → PyVal × Rec → Except PyError Graph) :
    Graph → List (PyVal × Rec) → Except PyError Graph
  | g, [] => .ok g
  | g, x :: xs =>
    match f g x with
    | .ok g2 => foldE f g2 xs
    | .error e => .error e

/-- One iteration of the users loop of `build_social_graph`: field lookups in
the order the `add_node` keyword arguments evaluate them, then the
`add_node` call. -/
def addUser (g : Graph) (entry : PyVal × Rec) : Except PyError Graph :=
  bindE (getF entry.2 "username") fun username =>
  bindE (getF entry.2 "attributes") fun uattrs =>
  bindE (subF uattrs "age") fun age =>
  bindE (subF uattrs "gender") fun gender =>
  bindE (subF uattrs "location") fun location =>
  bindE (getF entry.2 "posts") fun posts =>
  bindE (getF entry.2 "comments") fun comments =>
  bindE (getF entry.2 "posts_read") fun posts_read =>
  .ok (addNode g entry.1
    [("type", .val (.str "user")), ("username", username), ("age", age),
     ("gender", gender), ("location", location), ("posts", posts),
     ("comments", comments), ("posts_read", posts_read),
     ("color", .val (.str "green"))])

/-- One iteration of the posts loop of `build_social_graph`: the `add_node`
call, the `authored` edge from the author, then one `viewed` edge per entry
of `viewed_by` (in order). -/
def addPost (g : Graph) (entry : PyVal × Rec) : Except PyError Graph :=
  bindE (getF entry.2 "author") fun author =>
  bindE (getF entry.2 "content") fun content =>
  bindE (getF entry.2 "creation_time") fun creation_time =>
  bindE (getF entry.2 "comments") fun comments =>
  bindE (getF entry.2 "viewed_by") fun viewed_by =>
  let g2 := addNode g entry.1
    [("type", .val (.str "post")), ("author", author), ("content", content),
     ("creation_time", creation_time), ("comments", comments),
     ("viewed_by", viewed_by), ("color", .val (.str "blue"))]
  bindE (asId author) fun authorId =>
  let g3 := addEdge g2 authorId entry.1 "authored"
  bindE (iterIds viewed_by) fun viewers =>
  .ok (viewers.foldl (fun h viewer => addEdge h viewer entry.1 "viewed") g3)

/-- One iteration of the comments loop of `build_social_graph`: the
`add_node` call, the `authored` edge from the author, and the
`commented_on` edge to the comment's post. -/
def addComment (g : Graph) (entry : PyVal × Rec) : Except PyError Graph :=
  bindE (getF entry.2 "author") fun author =>
  bindE (getF entry.2 "post_id") fun post_id =>
  bindE (getF entry.2 "content") fun content =>
  bindE (getF entry.2 "creation_time") fun creation_time =>
  let g2 := addNode g entry.1
    [("type", .val (.str "comment")), ("author", author), ("post_id", post_id),
     ("content", content), ("creation_time", creation_time),
     ("color", .val (.str "magenta"))]
  bindE (asId author) fun authorId =>
  let g3 := addEdge g2 authorId entry.1 "authored"
  bindE (asId post_id) fun postIdV =>
  .ok (addEdge g3 entry.1 postIdV "commented_on")

/-- `build_social_graph(users, posts, comments)`: users first, then posts,
then comments, on an initially empty `DiGraph`.  The input dictionaries are
modelled as insertion-ordered association lists of `(id, record)`. -/
def build_social_graph (users posts comments : List (PyVal × Rec)) : Except PyError Graph :=
  bindE (foldE addUser (Graph.mk [] []) users) fun g1 =>
  bindE (foldE addPost g1 posts) fun g2 =>
  foldE addComment g2 comments

/-- Nodes of a given kind: the nodes whose `type` attribute is the given tag
(the specification's `nodesByKind`; in the source the filter
`attributes.get("type") == k` is written inline at each use site). -/
def nodesByKind (g : Graph) (k : String) : List (PyVal × Attrs) :=
  g.nodes.filter (fun nd => pyGet nd.2 "type" == PyObj.val (.str k))

/-- Python `b in a` on lowercased strings is substring containment on the
character lists; an empty needle is always contained. -/
def prefOf : List Char → List Char → Bool
  | [], _ => true
  | _ :: _, [] => false
  | a :: as, b :: bs => (a == b) && prefOf as bs

/-- `infOf needle hay`: `needle` occurs as a contiguous run in `hay`. -/
def infOf (needle : List Char) : List Char → Bool
  | [] => prefOf needle []
  | b :: bs => prefOf needle (b :: bs) || infOf needle bs

/-- Python `keyword.lower() in content.lower()`: containment of the
character-wise lowercased keyword in the lowercased content. -/
def lowerContains (content keyword : String) : Bool :=
  infOf (keyword.toList.map Char.toLower) (content.toList.map Char.toLower)

/-- The loop body of `filter_posts_by_graph` over the remaining nodes:
non-post nodes are skipped; a post is dropped unless the author-attribute
filter (all entries equal) and the keyword filter (some lowercased keyword a
substring of the lowercased content) pass; surviving contents are emitted in
iteration order.  `graph.nodes[post_author] if post_author in graph.nodes
else {}` resolves the author's attribute dict (a dict-valued author would be
unhashable in the `in` test: `TypeError`); `.lower()` on a non-string
content raises `AttributeError` (only reached when keywords were given). -/
def filterLoop (g : Graph) (include_keywords : List String)
    (user_filter : List (String × PyObj)) :
    List (PyVal × Attrs) → Except PyError (List PyObj)
  | [] => .ok []
  | nd :: rest =>
    if pyGet nd.2 "type" != PyObj.val (.str "post") then
      filterLoop g include_keywords user_filter rest
    else
      let post_author := pyGet nd.2 "author"
      let post_content := pyGet nd.2 "content"
      bindE (match post_author with
             | .dict _ => .error .typeError
             | .val v => .ok ((lookupNode g v).getD [])) fun author_attributes =>
      if !user_filter.isEmpty &&
         !(user_filter.all (fun kv => pyGet author_attributes kv.1 == kv.2)) then
        filterLoop g include_keywords user_filter rest
      else if !include_keywords.isEmpty then
        bindE (match post_content with
               | .val (.str s) => .ok s
               | _ => .error .attributeError) fun contentStr =>
        if include_keywords.any (fun keyword => lowerContains contentStr keyword) then
          bindE (filterLoop g include_keywords user_filter rest) fun tailR =>
          .ok (post_content :: tailR)
        else filterLoop g include_keywords user_filter rest
      else
        bindE (filterLoop g include_keywords user_filter rest) fun tailR =>
        .ok (post_content :: tailR)

/-- `filter_posts_by_graph(graph, include_keywords, user_filter)`; the
optional Python arguments default to `None`, which behaves exactly like an
empty list / empty dict in the two truthiness tests, so both are modelled by
the empty list. -/
def filter_posts_by_graph (g : Graph) (include_keywords : List String)
    (user_filter : List (String × PyObj)) : Except PyError (List PyObj) :=
  filterLoop g include_keywords user_filter g.nodes

/-- Score of one post under `filter == "mixed"`:
`comments_importance * len(comments) + views_importance * len(viewed_by)`
with `comments_importance = 1 - views_importance`. -/
def score_mixed (views_importance : ℚ) (a : Attrs) : Except PyError ℚ :=
  bindE (pyLen (pyGetD a "comments" (.val (.strList [])))) fun c =>
  bindE (pyLen (pyGetD a "viewed_by" (.val (.strList [])))) fun v =>
  .ok ((1 - views_importance) * (c : ℚ) + views_importance * (v : ℚ))

/-- Score of one post under `filter == "views"`: `len(viewed_by)`. -/
def score_views (a : Attrs) : Except PyError ℚ :=
  bindE (pyLen (pyGetD a "viewed_by" (.val (.strList [])))) fun v =>
  .ok ((v : ℚ))

/-- Score of one post under `filter == "comments"`: `len(comments)`. -/
def score_comments (a : Attrs) : Except PyError ℚ :=
  bindE (pyLen (pyGetD a "comments" (.val (.strList [])))) fun c =>
  .ok ((c : ℚ))

/-- Build the `(node, score)` candidate list of one of the three mode
comprehensions, over the post nodes in insertion order. -/
def scoreList (score : Attrs → Except PyError ℚ) :
    List (PyVal × Attrs) → Except PyError (List (PyVal × ℚ))
  | [] => .ok []
  | nd :: rest =>
    bindE (score nd.2) fun s =>
    bindE (scoreList score rest) fun tailR =>
    .ok ((nd.1, s) :: tailR)

/-- The `post_list` of `display_important_posts`: the dispatch on `filter`.
With an unrecognized mode no branch assigns `post_list`, and the subsequent
`sort_nodes(post_list, ...)` call raises `UnboundLocalError`. -/
def post_list_for (g : Graph) (filter : String) (views_importance : ℚ) :
    Except PyError (List (PyVal × ℚ)) :=
  if filter == "mixed" then
    scoreList (score_mixed views_importance) (nodesByKind g "post")
  else if filter == "views" then
    scoreList score_views (nodesByKind g "post")
  else if filter == "comments" then
    scoreList score_comments (nodesByKind g "post")
  else .error .unboundLocalError

/-- The merging while-loops of `merge`: while both sides remain take the left
element whenever `left[i][1] >= right[j][1]` (non-strict), otherwise the
right one; then append the leftover side. -/
def mergeRun : List (PyVal × ℚ) → List (PyVal × ℚ) → List (PyVal × ℚ)
  | [], r => r
  | l, [] => l
  | a :: l, b :: r =>
    if b.2 ≤ a.2 then a :: mergeRun l (b :: r)
    else b :: mergeRun (a :: l) r
termination_by l r => l.length + r.length

/-- `merge(posts, begin, mid, end)`: copy `posts[begin..mid]` and
`posts[mid+1..end]` into `left` and `right`, then write the merged run back
over positions `begin..end`.  Since the merged run has exactly
`end - begin + 1` elements, the in-place writeback equals replacing that
segment. -/
def merge (posts : List (PyVal × ℚ)) (b m e : Nat) : List (PyVal × ℚ) :=
  let left := (posts.drop b).take (m - b + 1)
  let right := (posts.drop (m + 1)).take (e - m)
  posts.take b ++ mergeRun left right ++ posts.drop (e + 1)

/-- `sort_nodes(posts, begin, end)`: top-down merge sort of the index range
`[begin, end]`, descending by score.  The Python recursion mutates `posts`
in place and the recursive return values are discarded; the mutation is
modelled by threading the list through the two recursive calls.  Indices are
`Nat` here: the only call site with a negative Python index is
`end = len(posts) - 1 = -1` on an empty list, where both versions hit the
`begin >= end` base case and return the list unchanged. -/
def sort_nodes (posts : List (PyVal × ℚ)) (b e : Nat) : List (PyVal × ℚ) :=
  if b ≥ e then posts
  else
    let m := (b + e) / 2
    let p1 := sort_nodes posts b m
    let p2 := sort_nodes p1 (m + 1) e
    merge p2 b m e
termination_by e - b
decreasing_by all_goals omega

/-- Python `lst[:n]` for an integer `n`: the first `n` elements when
`n ≥ 0`, and all but the last `|n|` elements when `n < 0`. -/
def pySlice (l : List α) (n : Int) : List α :=
  l.take (if 0 ≤ n then n.toNat else l.length - n.natAbs)

/-- The ranked result of `display_important_posts` before projection: the
candidate list fully sorted by `sort_nodes(post_list, 0, len(post_list)-1)`
and cut to `post_list[:n]` (the specification's
`rank(graph, mode, viewsImportance, n)`). -/
def rank (g : Graph) (filter : String) (views_importance : ℚ) (n : Int) :
    Except PyError (List (PyVal × ℚ)) :=
  bindE (post_list_for g filter views_importance) fun post_list =>
  .ok (pySlice (sort_nodes post_list 0 (post_list.length - 1)) n)

/-- `display_important_posts(graph, filter, views_importance, n)` up to the
pure-sink drawing call: the `important_posts` id list
`[post_id for post_id, _ in post_list[:n]]` that is handed to
`display_graph`. -/
def display_important_posts (g : Graph) (filter : String)
    (views_importance : ℚ) (n : Int) : Except PyError (List PyVal) :=
  bindE (rank g filter views_importance n) fun r =>
  .ok (r.map (fun p => p.1))

/-! ## Properties of the merge sort -/

/-- The order `sort_nodes` sorts by: non-increasing score. -/
def scoreGE (x y : PyVal × ℚ) : Prop := y.2 ≤ x.2

instance : DecidableRel scoreGE := fun x y => inferInstanceAs (Decidable (y.2 ≤ x.2))

/-- The segment `posts[b..e]` (both ends included). -/
def seg (posts : List (PyVal × ℚ)) (b e : Nat) : List (PyVal × ℚ) :=
  (posts.drop b).take (e + 1 - b)

theorem take_app {α : Type} (l1 l2 : List α) (n : Nat) (h : l1.length = n) :
    (l1 ++ l2).take n = l1 := by
  subst h; exact List.take_left l1 l2

theorem drop_app {α : Type} (l1 l2 : List α) (n : Nat) (h : l1.length = n) :
    (l1 ++ l2).drop n = l2 := by
  subst h; exact List.drop_left l1 l2

theorem drop_app_add {α : Type} (l1 l2 : List α) (n k : Nat) (h : l1.length = n) :
    (l1 ++ l2).drop (n + k) = l2.drop k := by
  subst h
  rw [← List.drop_drop, List.drop_left]

theorem seg_split (posts : List (PyVal × ℚ)) (b m e : Nat) (hbm : b ≤ m) (hme : m ≤ e) :
    seg posts b e = seg posts b m ++ seg posts (m + 1) e := by
  unfold seg
  have h1 : e + 1 - b = (m + 1 - b) + (e - m) := by omega
  rw [h1, List.take_add, List.drop_drop]
  have h2 : b + (m + 1 - b) = m + 1 := by omega
  have h3 : e - m = e + 1 - (m + 1) := by omega
  rw [h2, h3]

theorem mergeRun_length (l r : List (PyVal × ℚ)) :
    (mergeRun l r).length = l.length + r.length := by
  induction l, r using mergeRun.induct with
  | case1 r => simp [mergeRun]
  | case2 l => simp [mergeRun]
  | case3 a l b r h ih =>
    rw [mergeRun, if_pos h]
    simp only [List.length_cons] at ih ⊢
    omega
  | case4 a l b r h ih =>
    rw [mergeRun, if_neg h]
    simp only [List.length_cons] at ih ⊢
    omega

theorem mergeRun_perm (l r : List (PyVal × ℚ)) : (mergeRun l r).Perm (l ++ r) := by
  induction l, r using mergeRun.induct with
  | case1 r => simp [mergeRun]
  | case2 l => simp [mergeRun]
  | case3 a l b r h ih =>
    rw [mergeRun, if_pos h]
    exact ih.cons a
  | case4 a l b r h ih =>
    rw [mergeRun, if_neg h]
    exact (ih.cons b).trans List.perm_middle.symm

theorem mergeRun_sorted (l r : List (PyVal × ℚ)) (hl : List.Sorted scoreGE l)
    (hr : List.Sorted scoreGE r) : List.Sorted scoreGE (mergeRun l r) := by
  induction l, r using mergeRun.induct with
  | case1 r => simpa [mergeRun]
  | case2 l => simpa [mergeRun]
  | case3 a l b r h ih =>
    rw [mergeRun, if_pos h]
    rw [List.sorted_cons] at hl ⊢
    refine ⟨?_, ih hl.2 hr⟩
    intro x hx
    rcases List.mem_append.mp ((mergeRun_perm l (b :: r)).mem_iff.mp hx) with h1 | h1
    · exact hl.1 x h1
    · rcases List.mem_cons.mp h1 with rfl | h2
      · exact h
      · exact le_trans ((List.sorted_cons.mp hr).1 x h2) h
  | case4 a l b r h ih =>
    rw [mergeRun, if_neg h]
    have hab : a.2 < b.2 := lt_of_not_le h
    rw [List.sorted_cons] at hr ⊢
    refine ⟨?_, ih hl hr.2⟩
    intro x hx
    rcases List.mem_append.mp ((mergeRun_perm (a :: l) r).mem_iff.mp hx) with h1 | h1
    · rcases List.mem_cons.mp h1 with rfl | h2
      · exact le_of_lt hab
      · exact le_trans ((List.sorted_cons.mp hl).1 x h2) (le_of_lt hab)
    · exact hr.1 x h1

/-- Stability of the merging loops: since ties go to the left side, the
subsequence of entries carrying any fixed score `q` is the left side's
`q`-entries followed by the right side's. -/
theorem mergeRun_filter (q : ℚ) (l r : List (PyVal × ℚ)) (hl : List.Sorted scoreGE l) :
    (mergeRun l r).filter (fun x => decide (x.2 = q)) =
      l.filter (fun x => decide (x.2 = q)) ++ r.filter (fun x => decide (x.2 = q)) := by
  induction l, r using mergeRun.induct with
  | case1 r => simp [mergeRun]
  | case2 l => simp [mergeRun]
  | case3 a l b r h ih =>
    rw [mergeRun, if_pos h]
    rw [List.sorted_cons] at hl
    by_cases hq : a.2 = q <;> simp [List.filter_cons, hq, ih hl.2]
  | case4 a l b r h ih =>
    rw [mergeRun, if_neg h]
    have hab : a.2 < b.2 := lt_of_not_le h
    by_cases hbq : b.2 = q
    · have hzero : (a :: l).filter (fun x => decide (x.2 = q)) = [] := by
        rw [List.filter_eq_nil_iff]
        intro x hx
        simp only [decide_eq_true_eq]
        rcases List.mem_cons.mp hx with rfl | h2
        · exact ne_of_lt (hbq ▸ hab)
        · have hxa : x.2 ≤ a.2 := (List.sorted_cons.mp hl).1 x h2
          exact ne_of_lt (hbq ▸ lt_of_le_of_lt hxa hab)
      simp [List.filter_cons, hbq, ih hl, hzero]
    · simp [List.filter_cons, hbq, ih hl]

theorem merge_eq (posts : List (PyVal × ℚ)) (b m e : Nat) (hbm : b ≤ m) :
    merge posts b m e =
      posts.take b ++ mergeRun (seg posts b m) (seg posts (m + 1) e) ++ posts.drop (e + 1) := by
  have h1 : m - b + 1 = m + 1 - b := by omega
  have h2 : e - m = e + 1 - (m + 1) := by omega
  simp only [merge, seg, h1, h2]

/-- The base case of `sort_nodes`: a one-element range is returned unchanged
and is trivially a sorted rearrangement of itself. -/
theorem sort_single (posts : List (PyVal × ℚ)) (b : Nat) (hlen : b < posts.length) :
    ∃ S, sort_nodes posts b b = posts.take b ++ S ++ posts.drop (b + 1)
      ∧ S.length = b + 1 - b
      ∧ List.Sorted scoreGE S
      ∧ S.Perm (seg posts b b)
      ∧ (∀ q, S.filter (fun x => decide (x.2 = q)) =
          (seg posts b b).filter (fun x => decide (x.2 = q))) := by
  refine ⟨seg posts b b, ?_, ?_, ?_, List.Perm.refl _, fun q => rfl⟩
  · rw [sort_nodes, if_pos (le_refl b)]
    have h1 : b + 1 - b = 1 := by omega
    have h2 : posts.drop (b + 1) = (posts.drop b).drop 1 := by
      rw [List.drop_drop]
    unfold seg
    rw [h1, h2, List.append_assoc, List.take_append_drop, List.take_append_drop]
  · unfold seg
    rw [List.length_take, List.length_drop]
    omega
  · have h1 : (seg posts b b).length = 1 := by
      unfold seg
      rw [List.length_take, List.length_drop]
      omega
    obtain ⟨x, hx⟩ := List.length_eq_one.mp h1
    rw [hx]
    simp

/-- Main characterization of `sort_nodes` on a valid index range: only the
segment `[b, e]` changes, and it is replaced by a run that is sorted
(non-increasing by score), a permutation of the original segment, and --
stability -- has, for every score `q`, exactly the original subsequence of
`q`-scored entries. -/
theorem sort_spec : ∀ (d : Nat) (posts : List (PyVal × ℚ)) (b e : Nat),
    e - b ≤ d → b ≤ e → e < posts.length →
    ∃ S, sort_nodes posts b e = posts.take b ++ S ++ posts.drop (e + 1)
      ∧ S.length = e + 1 - b
      ∧ List.Sorted scoreGE S
      ∧ S.Perm (seg posts b e)
      ∧ (∀ q, S.filter (fun x => decide (x.2 = q)) =
          (seg posts b e).filter (fun x => decide (x.2 = q))) := by
  intro d
  induction d with
  | zero =>
    intro posts b e hd hbe hlen
    have hb : b = e := by omega
    subst hb
    exact sort_single posts b hlen
  | succ d ih =>
    intro posts b e hd hbe hlen
    by_cases hbe2 : b = e
    · subst hbe2
      exact sort_single posts b hlen
    · have hlt : b < e := by omega
      have hstep : sort_nodes posts b e =
          merge (sort_nodes (sort_nodes posts b ((b + e) / 2)) ((b + e) / 2 + 1) e)
            b ((b + e) / 2) e := by
        rw [sort_nodes, if_neg (by omega : ¬ b ≥ e)]
      set m := (b + e) / 2 with hm
      have hbm : b ≤ m := by omega
      have hme : m < e := by omega
      obtain ⟨S1, h1eq, h1len, h1sorted, h1perm, h1filt⟩ :=
        ih posts b m (by omega) hbm (by omega)
      set p1 := sort_nodes posts b m with hp1
      have htb : (posts.take b).length = b := by
        rw [List.length_take]; omega
      have hleft1 : (posts.take b ++ S1).length = m + 1 := by
        rw [List.length_append, htb, h1len]; omega
      have hp1len : p1.length = posts.length := by
        rw [h1eq, List.length_append, List.length_append, htb, h1len, List.length_drop]
        omega
      obtain ⟨S2, h2eq, h2len, h2sorted, h2perm, h2filt⟩ :=
        ih p1 (m + 1) e (by omega) (by omega) (by omega)
      have hp1dropm : p1.drop (m + 1) = posts.drop (m + 1) := by
        rw [h1eq]
        exact drop_app _ _ _ hleft1
      have hp1seg : seg p1 (m + 1) e = seg posts (m + 1) e := by
        unfold seg; rw [hp1dropm]
      have hp1take : p1.take (m + 1) = posts.take b ++ S1 := by
        rw [h1eq]
        exact take_app _ _ _ hleft1
      have hp1drope : p1.drop (e + 1) = posts.drop (e + 1) := by
        have h5 : e + 1 = (m + 1) + (e - m) := by omega
        rw [h1eq]
        conv_lhs => rw [h5]
        rw [drop_app_add _ _ _ _ hleft1, List.drop_drop]
        congr 1
        omega
      set p2 := sort_nodes p1 (m + 1) e with hp2
      have hS2len : S2.length = e - m := by omega
      have hp2eq : p2 = posts.take b ++ S1 ++ S2 ++ posts.drop (e + 1) := by
        rw [h2eq, hp1take, hp1drope]
      have hp2eqA : p2 = posts.take b ++ (S1 ++ (S2 ++ posts.drop (e + 1))) := by
        rw [hp2eq, List.append_assoc, List.append_assoc]
      have hp2eqB : p2 = (posts.take b ++ S1) ++ (S2 ++ posts.drop (e + 1)) := by
        rw [hp2eq, List.append_assoc]
      have hseg2 : S2.Perm (seg posts (m + 1) e) := hp1seg ▸ h2perm
      refine ⟨mergeRun S1 S2, ?_, ?_, mergeRun_sorted _ _ h1sorted h2sorted, ?_, ?_⟩
      · rw [hstep, merge_eq p2 b m e hbm]
        have ha : p2.take b = posts.take b := by
          rw [hp2eqA]
          exact take_app _ _ _ htb
        have hb2 : seg p2 b m = S1 := by
          unfold seg
          rw [hp2eqA, drop_app _ _ _ htb]
          have h6 : m + 1 - b = S1.length := by omega
          rw [h6]
          exact take_app _ _ _ rfl
        have hc : seg p2 (m + 1) e = S2 := by
          unfold seg
          rw [hp2eqB, drop_app _ _ _ hleft1]
          have h7 : e + 1 - (m + 1) = S2.length := by omega
          rw [h7]
          exact take_app _ _ _ rfl
        have hdp : p2.drop (e + 1) = posts.drop (e + 1) := by
          rw [hp2eq]
          refine drop_app _ _ _ ?_
          rw [List.length_append, List.length_append, htb, h1len, hS2len]
          omega
        rw [ha, hb2, hc, hdp]
      · rw [mergeRun_length, h1len, hS2len]; omega
      · refine (mergeRun_perm S1 S2).trans ?_
        rw [seg_split posts b m e hbm (le_of_lt hme)]
        exact h1perm.append hseg2
      · intro q
        rw [mergeRun_filter q S1 S2 h1sorted, h1filt q, h2filt q, hp1seg,
            seg_split posts b m e hbm (le_of_lt hme), List.filter_append]

/-- The full-range call `sort_nodes(post_list, 0, len(post_list) - 1)`:
permutation, sortedness, and per-score stability. -/
theorem sort_full (pl : List (PyVal × ℚ)) :
    (sort_nodes pl 0 (pl.length - 1)).Perm pl ∧
    List.Sorted scoreGE (sort_nodes pl 0 (pl.length - 1)) ∧
    (∀ q, (sort_nodes pl 0 (pl.length - 1)).filter (fun x => decide (x.2 = q)) =
      pl.filter (fun x => decide (x.2 = q))) := by
  by_cases he : pl = []
  · subst he
    have hx : sort_nodes [] 0 (List.length ([] : List (PyVal × ℚ)) - 1) = [] := by
      rw [sort_nodes]
      simp
    rw [hx]
    simp
  · have hl : 1 ≤ pl.length := by
      cases pl with
      | nil => exact absurd rfl he
      | cons y ys => simp
    obtain ⟨S, heq, hSlen, hSsort, hSperm, hSfilt⟩ :=
      sort_spec pl.length pl 0 (pl.length - 1) (by omega) (by omega) (by omega)
    have hdrop : pl.drop (pl.length - 1 + 1) = [] := by
      apply List.drop_eq_nil_of_le
      omega
    have hseg : seg pl 0 (pl.length - 1) = pl := by
      unfold seg
      rw [List.drop_zero]
      have h1 : pl.length - 1 + 1 - 0 = pl.length := by omega
      rw [h1, List.take_length]
    have heq2 : sort_nodes pl 0 (pl.length - 1) = S := by
      rw [heq, hdrop]
      simp
    rw [heq2]
    exact ⟨hseg ▸ hSperm, hSsort, fun q => by rw [hSfilt q, hseg]⟩

/-! ## Properties of the candidate-list builders -/

theorem scoreList_ids (score : Attrs → Except PyError ℚ) :
    ∀ (l : List (PyVal × Attrs)) (out : List (PyVal × ℚ)),
    scoreList score l = .ok out → out.map (fun p => p.1) = l.map (fun p => p.1) := by
  intro l
  induction l with
  | nil =>
    intro out h
    simp only [scoreList] at h
    cases h
    rfl
  | cons x xs ih =>
    intro out h
    simp only [scoreList] at h
    cases hs : score x.2 with
    | error e => rw [hs] at h; exact absurd h (by simp [bindE])
    | ok s =>
      rw [hs] at h
      cases ht : scoreList score xs with
      | error e => rw [ht] at h; exact absurd h (by simp [bindE])
      | ok t =>
        rw [ht] at h
        simp only [bindE] at h
        cases h
        simp [ih t ht]

/-- Pointwise agreement of two scoring functions on successful runs lifts to
the candidate-list builder. -/
theorem scoreList_congr (f1 f2 : Attrs → Except PyError ℚ)
    (hpt : ∀ a s, f1 a = .ok s → f2 a = .ok s) :
    ∀ l out, scoreList f1 l = .ok out → scoreList f2 l = .ok out := by
  intro l
  induction l with
  | nil => intro out h; exact h
  | cons x xs ih =>
    intro out h
    simp only [scoreList] at h ⊢
    cases hs : f1 x.2 with
    | error e => rw [hs] at h; exact absurd h (by simp [bindE])
    | ok s =>
      rw [hs] at h
      cases ht : scoreList f1 xs with
      | error e => rw [ht] at h; exact absurd h (by simp [bindE])
      | ok t =>
        rw [ht] at h
        rw [hpt x.2 s hs, ih t ht]
        exact h

theorem score_mixed_to_comments (a : Attrs) (s : ℚ) (h : score_mixed 0 a = .ok s) :
    score_comments a = .ok s := by
  simp only [score_mixed, score_comments] at h ⊢
  cases hc : pyLen (pyGetD a "comments" (.val (.strList []))) with
  | error e => rw [hc] at h; exact absurd h (by simp [bindE])
  | ok c =>
    rw [hc] at h
    cases hv : pyLen (pyGetD a "viewed_by" (.val (.strList []))) with
    | error e => rw [hv] at h; exact absurd h (by simp [bindE])
    | ok v =>
      rw [hv] at h
      simp only [bindE] at h ⊢
      cases h
      congr 1
      ring

/-- If the `mixed` score of a post succeeds (for any weight) then so do the
weight-1 mixed score and the `views` score, with the same value. -/
theorem score_mixed_to_views (vI : ℚ) (a : Attrs) (s : ℚ)
    (h : score_mixed vI a = .ok s) :
    ∃ t, score_mixed 1 a = .ok t ∧ score_views a = .ok t := by
  simp only [score_mixed, score_views] at h ⊢
  cases hc : pyLen (pyGetD a "comments" (.val (.strList []))) with
  | error e => rw [hc] at h; exact absurd h (by simp [bindE])
  | ok c =>
    rw [hc] at h
    cases hv : pyLen (pyGetD a "viewed_by" (.val (.strList []))) with
    | error e => rw [hv] at h; exact absurd h (by simp [bindE])
    | ok v =>
      rw [hv] at h
      simp only [bindE]
      refine ⟨(v : ℚ), by congr 1; ring, rfl⟩

theorem scoreList_views_of_mixed (vI : ℚ) :
    ∀ l out1, scoreList (score_mixed vI) l = .ok out1 →
    ∃ out2, scoreList (score_mixed 1) l = .ok out2 ∧ scoreList score_views l = .ok out2 := by
  intro l
  induction l with
  | nil => intro out1 h; exact ⟨[], rfl, rfl⟩
  | cons x xs ih =>
    intro out1 h
    simp only [scoreList] at h ⊢
    cases hs : score_mixed vI x.2 with
    | error e => rw [hs] at h; exact absurd h (by simp [bindE])
    | ok s =>
      rw [hs] at h
      cases ht : scoreList (score_mixed vI) xs with
      | error e => rw [ht] at h; exact absurd h (by simp [bindE])
      | ok t =>
        obtain ⟨u, hu1, hu2⟩ := score_mixed_to_views vI x.2 s hs
        obtain ⟨out2, ho1, ho2⟩ := ih t ht
        exact ⟨(x.1, u) :: out2, by simp [bindE, hu1, ho1], by simp [bindE, hu2, ho2]⟩

theorem post_list_for_mixed (g : Graph) (vI : ℚ) :
    post_list_for g "mixed" vI = scoreList (score_mixed vI) (nodesByKind g "post") := rfl

theorem post_list_for_views (g : Graph) (vI : ℚ) :
    post_list_for g "views" vI = scoreList score_views (nodesByKind g "post") := rfl

theorem post_list_for_comments (g : Graph) (vI : ℚ) :
    post_list_for g "comments" vI = scoreList score_comments (nodesByKind g "post") := rfl

theorem post_list_for_other (g : Graph) (mode : String) (vI : ℚ)
    (h1 : mode ≠ "mixed") (h2 : mode ≠ "views") (h3 : mode ≠ "comments") :
    post_list_for g mode vI = .error .unboundLocalError := by
  simp [post_list_for, h1, h2, h3]

deriving instance DecidableEq for Except

theorem sort_nodes_base (posts : List (PyVal × ℚ)) (b e : Nat) (h : e ≤ b) :
    sort_nodes posts b e = posts := by
  rw [sort_nodes]
  simp [ge_iff_le, h]

theorem sort_nodes_pair (x y : PyVal × ℚ) (h : y.2 ≤ x.2) :
    sort_nodes [x, y] 0 1 = [x, y] := by
  rw [sort_nodes]
  norm_num [sort_nodes_base]
  unfold merge
  norm_num
  rw [mergeRun, if_pos h, mergeRun]

/-- A two-post graph whose posts carry no attributes beyond their kind, so
both score `0` under every mode. -/
def gTwoPosts : Graph :=
  Graph.mk [(.str "p1", [("type", .val (.str "post"))]),
            (.str "p2", [("type", .val (.str "post"))])] []

/-! ## Claims about the ranking pipeline -/

/-- **C10**: sorting the full range (`sort_nodes(posts, 0, len(posts)-1)`,
via `merge`) returns a permutation of its input: the output contains exactly
the same multiset of `(postId, score)` pairs, none lost and none
duplicated. -/
theorem c10_sort_nodes_permutation (posts : List (PyVal × ℚ)) :
    (sort_nodes posts 0 (posts.length - 1)).Perm posts :=
  (sort_full posts).1

/-- **C1**: the merge step takes from the left side on ties (non-strict
comparison, built into `mergeRun`), so ranking is stable: for every
candidate list produced by any mode from a graph's posts (which are listed
in post-insertion order), and every score `q`, the subsequence of `q`-scored
entries of the fully sorted list is exactly the subsequence of `q`-scored
entries of the candidate list — equal-scoring posts keep their relative
insertion order. -/
theorem c1_ranking_stability (g : Graph) (mode : String) (vI : ℚ)
    (pl : List (PyVal × ℚ)) (q : ℚ)
    (h : post_list_for g mode vI = Except.ok pl) :
    (sort_nodes pl 0 (pl.length - 1)).filter (fun x => decide (x.2 = q)) =
      pl.filter (fun x => decide (x.2 = q)) :=
  (sort_full pl).2.2 q

theorem c1_ranking_stability_witness :
    post_list_for gTwoPosts "views" (1/2) =
      Except.ok [(PyVal.str "p1", (0 : ℚ)), (PyVal.str "p2", 0)] ∧
    (sort_nodes [(PyVal.str "p1", (0 : ℚ)), (PyVal.str "p2", 0)] 0
        ([(PyVal.str "p1", (0 : ℚ)), (PyVal.str "p2", 0)].length - 1)).filter
        (fun x => decide (x.2 = 0)) =
      [(PyVal.str "p1", (0 : ℚ)), (PyVal.str "p2", 0)].filter
        (fun x => decide (x.2 = 0)) :=
  ⟨by decide, c1_ranking_stability gTwoPosts "views" (1/2) _ 0 (by decide)⟩

/-- **C2** (counterexample): with the unrecognized mode `"latest"` the call
fails with `UnboundLocalError` (the `post_list` local was never assigned),
not with the specification's `InvalidRankingModeError`, which the source
does not define. -/
theorem c2_counterexample :
    display_important_posts (Graph.mk [] []) "latest" (1/2) 1 =
      .error .unboundLocalError ∧
    display_important_posts (Graph.mk [] []) "latest" (1/2) 1 ≠
      .error .invalidRankingModeError := by
  constructor
  · decide
  · decide

/-- **C2** (amended): for every graph, `viewsImportance` and `n`, calling
the ranking with a mode outside `{views, comments, mixed}` aborts without
producing a ranked result — but with Python's `UnboundLocalError` (the
mode dispatch assigns no `post_list`), not with an
`InvalidRankingModeError`. -/
theorem c2_unknown_mode_unbound (g : Graph) (mode : String) (vI : ℚ) (n : Int)
    (h1 : mode ≠ "mixed") (h2 : mode ≠ "views") (h3 : mode ≠ "comments") :
    display_important_posts g mode vI n = .error .unboundLocalError := by
  simp [display_important_posts, rank, post_list_for_other g mode vI h1 h2 h3, bindE]

theorem c2_unknown_mode_unbound_witness :
    display_important_posts (Graph.mk [] []) "latest" (1/2) 1 =
      .error .unboundLocalError :=
  c2_unknown_mode_unbound (Graph.mk [] []) "latest" (1/2) 1
    (by decide) (by decide) (by decide)

/-- **C3** (counterexample): with a negative `n`, `post_list[:n]` is not
empty: on a two-candidate graph, `n = -1` returns one entry, contradicting
"for every n ≤ 0 (including negative n) the result is empty". -/
theorem c3_counterexample :
    rank gTwoPosts "views" (1/2) (-1) = Except.ok [(PyVal.str "p1", (0 : ℚ))] ∧
    rank gTwoPosts "views" (1/2) (-1) ≠ Except.ok ([] : List (PyVal × ℚ)) := by
  have h1 : post_list_for gTwoPosts "views" (1/2) =
      Except.ok [(PyVal.str "p1", (0 : ℚ)), (PyVal.str "p2", 0)] := by decide
  have h2 : sort_nodes [(PyVal.str "p1", (0 : ℚ)), (PyVal.str "p2", 0)] 0
      ([(PyVal.str "p1", (0 : ℚ)), (PyVal.str "p2", 0)].length - 1) =
      [(PyVal.str "p1", (0 : ℚ)), (PyVal.str "p2", 0)] := by
    norm_num
    exact sort_nodes_pair _ _ (le_refl (0 : ℚ))
  constructor
  · simp only [rank, h1, bindE, h2]
    decide
  · simp only [rank, h1, bindE, h2]
    decide

/-- **C3** (amended): for every graph, valid mode and integer `n`, `rank`
returns `post_list[:n]` of the candidate list sorted in non-increasing
order of score.  For `n ≥ 0` the result length is `min n (number of
candidates)` (so it is shorter than `n` only when there are fewer
candidates), and `n = 0` yields the empty result; but for negative `n`
Python slicing keeps all but the last `|n|` sorted entries instead of
returning the empty list. -/
theorem c3_rank_slice (g : Graph) (mode : String) (vI : ℚ) (n : Int)
    (pl : List (PyVal × ℚ)) (h : post_list_for g mode vI = Except.ok pl) :
    rank g mode vI n = .ok (pySlice (sort_nodes pl 0 (pl.length - 1)) n) ∧
    List.Sorted scoreGE (pySlice (sort_nodes pl 0 (pl.length - 1)) n) ∧
    (0 ≤ n →
      (pySlice (sort_nodes pl 0 (pl.length - 1)) n).length = min n.toNat pl.length) ∧
    (n < 0 →
      (pySlice (sort_nodes pl 0 (pl.length - 1)) n).length = pl.length - n.natAbs) ∧
    (n = 0 → pySlice (sort_nodes pl 0 (pl.length - 1)) n = []) := by
  have hlen : (sort_nodes pl 0 (pl.length - 1)).length = pl.length :=
    (sort_full pl).1.length_eq
  refine ⟨by simp [rank, h, bindE], ?_, ?_, ?_, ?_⟩
  · exact List.Pairwise.sublist (List.take_sublist _ _) ((sort_full pl).2.1)
  · intro hn
    simp [pySlice, hn, List.length_take, hlen]
  · intro hn
    have hn2 : ¬ 0 ≤ n := by omega
    simp only [pySlice, hn2, if_neg, List.length_take, hlen, ite_false]
    omega
  · intro hn
    subst hn
    simp [pySlice]

theorem c3_rank_slice_witness :
    post_list_for gTwoPosts "views" (1/2) =
      Except.ok [(PyVal.str "p1", (0 : ℚ)), (PyVal.str "p2", 0)] ∧
    (0 : Int) ≤ 2 ∧
    rank gTwoPosts "views" (1/2) 2 =
      .ok (pySlice (sort_nodes [(PyVal.str "p1", (0 : ℚ)), (PyVal.str "p2", 0)] 0
        ([(PyVal.str "p1", (0 : ℚ)), (PyVal.str "p2", 0)].length - 1)) 2) ∧
    (pySlice (sort_nodes [(PyVal.str "p1", (0 : ℚ)), (PyVal.str "p2", 0)] 0
        ([(PyVal.str "p1", (0 : ℚ)), (PyVal.str "p2", 0)].length - 1)) 2).length =
      min (Int.toNat 2) [(PyVal.str "p1", (0 : ℚ)), (PyVal.str "p2", 0)].length :=
  ⟨by decide, by decide,
    (c3_rank_slice gTwoPosts "views" (1/2) 2 _ (by decide)).1,
    (c3_rank_slice gTwoPosts "views" (1/2) 2 _ (by decide)).2.2.1 (by decide)⟩

/-- **C7**: on identical input, ranking with `mode="mixed",
viewsImportance=0` produces the same result as `mode="comments"` (any
weight), and `mode="mixed", viewsImportance=1` the same as `mode="views"`;
stated whenever the mixed candidate list is defined (its per-post score
evaluation succeeds), which also makes the other modes succeed with
pointwise equal scores, so the whole ranked id output agrees. -/
theorem c7_mixed_extremes (g : Graph) (vI1 vI2 : ℚ) (n : Int)
    (pl : List (PyVal × ℚ)) (h : post_list_for g "mixed" 0 = Except.ok pl) :
    display_important_posts g "comments" vI1 n =
      display_important_posts g "mixed" 0 n ∧
    display_important_posts g "views" vI2 n =
      display_important_posts g "mixed" 1 n := by
  have hm : scoreList (score_mixed 0) (nodesByKind g "post") = .ok pl := h
  have hc : scoreList score_comments (nodesByKind g "post") = .ok pl :=
    scoreList_congr _ _ score_mixed_to_comments _ pl hm
  obtain ⟨pl2, hv1, hv2⟩ := scoreList_views_of_mixed 0 _ pl hm
  constructor
  · simp [display_important_posts, rank, post_list_for_comments,
      post_list_for_mixed, hc, hm, bindE]
  · simp [display_important_posts, rank, post_list_for_views,
      post_list_for_mixed, hv1, hv2, bindE]

theorem c7_mixed_extremes_witness :
    post_list_for gTwoPosts "mixed" 0 =
      Except.ok [(PyVal.str "p1", (0 : ℚ)), (PyVal.str "p2", 0)] ∧
    display_important_posts gTwoPosts "comments" (1/2) 1 =
      display_important_posts gTwoPosts "mixed" 0 1 :=
  have hmix : post_list_for gTwoPosts "mixed" 0 =
      Except.ok [(PyVal.str "p1", (0 : ℚ)), (PyVal.str "p2", 0)] := by
    simp [post_list_for, scoreList, score_mixed, nodesByKind, gTwoPosts,
      pyGet, pyGetD, pyLen, bindE]
  ⟨hmix, (c7_mixed_extremes gTwoPosts (1/2) (1/2) 1 _ hmix).1⟩

/-! ## The builder's error taxonomy -/

/-- The exception classes the builder can actually raise: `KeyError` and
`TypeError` (and, elsewhere in the module, `AttributeError` and
`UnboundLocalError`); none of the specification's three error classes. -/
def benign : PyError → Prop
  | .keyError _ => True
  | .typeError => True
  | .attributeError => True
  | .unboundLocalError => True
  | .duplicateNodeError => False
  | .malformedEntityError _ => False
  | .invalidRankingModeError => False

/-- All error outcomes of a fallible step are benign. -/
def benignE (r : Except PyError α) : Prop := ∀ e, r = .error e → benign e

theorem ok_benign (x : α) : benignE (Except.ok x : Except PyError α) := by
  intro e he
  cases he

theorem bindE_error {r : Except PyError α} {k : α → Except PyError β} {e : PyError}
    (h : bindE r k = .error e) :
    r = .error e ∨ ∃ x, r = .ok x ∧ k x = .error e := by
  cases r with
  | ok x => exact Or.inr ⟨x, rfl, h⟩
  | error e2 =>
    left
    cases h
    rfl

theorem bindE_benign {r : Except PyError α} {k : α → Except PyError β}
    (hr : benignE r) (hk : ∀ x, benignE (k x)) : benignE (bindE r k) := by
  intro e he
  rcases bindE_error he with h1 | ⟨x, hx, h2⟩
  · exact hr e h1
  · exact hk x e h2

theorem getF_benign (r : Rec) (k : String) : benignE (getF r k) := by
  intro e he
  unfold getF at he
  cases hf : r.find? (fun p => p.1 == k) with
  | some p => rw [hf] at he; cases he
  | none => rw [hf] at he; cases he; trivial

theorem subF_benign (o : PyObj) (k : String) : benignE (subF o k) := by
  intro e he
  cases o with
  | val v => cases he; trivial
  | dict d =>
    simp only [subF] at he
    cases hf : d.find? (fun p => p.1 == k) with
    | some p => rw [hf] at he; cases he
    | none => rw [hf] at he; cases he; trivial

theorem asId_benign (o : PyObj) : benignE (asId o) := by
  intro e he
  cases o with
  | val v => cases he
  | dict d => cases he; trivial

theorem iterIds_benign (o : PyObj) : benignE (iterIds o) := by
  intro e he
  cases o with
  | val v => cases v with
    | none => cases he; trivial
    | str s => cases he
    | int n => cases he; trivial
    | strList l => cases he
  | dict d => cases he

theorem addUser_benign (g : Graph) (x : PyVal × Rec) : benignE (addUser g x) :=
  bindE_benign (getF_benign _ _) fun _ =>
  bindE_benign (getF_benign _ _) fun _ =>
  bindE_benign (subF_benign _ _) fun _ =>
  bindE_benign (subF_benign _ _) fun _ =>
  bindE_benign (subF_benign _ _) fun _ =>
  bindE_benign (getF_benign _ _) fun _ =>
  bindE_benign (getF_benign _ _) fun _ =>
  bindE_benign (getF_benign _ _) fun _ =>
  ok_benign _

theorem addPost_benign (g : Graph) (x : PyVal × Rec) : benignE (addPost g x) :=
  bindE_benign (getF_benign _ _) fun _ =>
  bindE_benign (getF_benign _ _) fun _ =>
  bindE_benign (getF_benign _ _) fun _ =>
  bindE_benign (getF_benign _ _) fun _ =>
  bindE_benign (getF_benign _ _) fun _ =>
  bindE_benign (asId_benign _) fun _ =>
  bindE_benign (iterIds_benign _) fun _ =>
  ok_benign _

theorem addComment_benign (g : Graph) (x : PyVal × Rec) : benignE (addComment g x) :=
  bindE_benign (getF_benign _ _) fun _ =>
  bindE_benign (getF_benign _ _) fun _ =>
  bindE_benign (getF_benign _ _) fun _ =>
  bindE_benign (getF_benign _ _) fun _ =>
  bindE_benign (asId_benign _) fun _ =>
  bindE_benign (asId_benign _) fun _ =>
  ok_benign _

theorem foldE_benign (f : Graph → PyVal × Rec → Except PyError Graph)
    (hf : ∀ g x, benignE (f g x)) :
    ∀ (l : List (PyVal × Rec)) (g : Graph), benignE (foldE f g l) := by
  intro l
  induction l with
  | nil => intro g; exact ok_benign g
  | cons x xs ih =>
    intro g e he
    simp only [foldE] at he
    cases hs : f g x with
    | ok g2 => rw [hs] at he; exact ih g2 e he
    | error e2 =>
      rw [hs] at he
      injection he with h3
      subst h3
      exact hf g x _ hs

/-- The builder can only raise `KeyError` or `TypeError`: in particular it
never raises `DuplicateNodeError` or `MalformedEntityError`. -/
theorem build_benign (users posts comments : List (PyVal × Rec)) :
    benignE (build_social_graph users posts comments) :=
  bindE_benign (foldE_benign addUser addUser_benign users _) fun g1 =>
  bindE_benign (foldE_benign addPost addPost_benign posts g1) fun g2 =>
  foldE_benign addComment addComment_benign comments g2

/-- A post record lacking `content` makes its loop iteration fail, whatever
the graph state (either the earlier `author` lookup fails, or the `content`
lookup raises `KeyError("content")`). -/
theorem addPost_fails (entry : PyVal × Rec)
    (h : entry.2.find? (fun f => f.1 == "content") = Option.none) :
    ∀ g, ∃ e, addPost g entry = .error e := by
  intro g
  cases ha : getF entry.2 "author" with
  | error e => exact ⟨e, by simp only [addPost, ha, bindE]⟩
  | ok a =>
    have hc : getF entry.2 "content" = .error (.keyError "content") := by
      unfold getF
      rw [h]
    exact ⟨.keyError "content", by simp only [addPost, ha, hc, bindE]⟩

/-- A loop over a list containing an always-failing entry never succeeds. -/
theorem foldE_no_ok (f : Graph → PyVal × Rec → Except PyError Graph)
    (x : PyVal × Rec) (hx : ∀ g, ∃ e, f g x = .error e) :
    ∀ (l : List (PyVal × Rec)) (g gout : Graph),
      x ∈ l → foldE f g l ≠ .ok gout := by
  intro l
  induction l with
  | nil => intro g gout hmem; cases hmem
  | cons y ys ih =>
    intro g gout hmem hok
    simp only [foldE] at hok
    cases hf : f g y with
    | error e => rw [hf] at hok; cases hok
    | ok g2 =>
      rw [hf] at hok
      rcases List.mem_cons.mp hmem with rfl | hmem2
      · obtain ⟨e, he⟩ := hx g
        rw [he] at hf
        cases hf
      · exact ih g2 gout hmem2 hok

/-! ## Claims about duplicate ids and missing fields -/

-- A user record and a post record sharing the id `"a"`.
def c5U : List (PyVal × Rec) :=
  [(.str "a",
    [("username", .val (.str "u")),
     ("attributes", .dict [("age", .int 30), ("gender", .str "f"), ("location", .str "H")]),
     ("posts", .val (.strList [])), ("comments", .val (.strList [])),
     ("posts_read", .val (.strList []))])]

def c5P : List (PyVal × Rec) :=
  [(.str "a",
    [("author", .val (.str "u1")), ("content", .val (.str "x")),
     ("creation_time", .val (.int 1)), ("comments", .val (.strList [])),
     ("viewed_by", .val (.strList []))])]

/-- **C5** (counterexample): with the id `"a"` occurring both as a user and
as a post, the build succeeds (no `DuplicateNodeError`): the node list holds
one entry for `"a"` (plus the auto-created author placeholder `"u1"`), and
the post's attributes have been silently merged into the user node
(`type` overwritten to `"post"`, user attributes retained, post attributes
appended). -/
theorem c5_counterexample :
    build_social_graph c5U c5P [] ≠ .error .duplicateNodeError ∧
    (build_social_graph c5U c5P []).map (fun g => g.nodes.map (fun nd => nd.1)) =
      .ok [PyVal.str "a", PyVal.str "u1"] ∧
    (build_social_graph c5U c5P []).map (fun g => lookupNode g (.str "a")) =
      .ok (some [("type", .val (.str "post")), ("username", .val (.str "u")),
        ("age", .val (.int 30)), ("gender", .val (.str "f")),
        ("location", .val (.str "H")), ("posts", .val (.strList [])),
        ("comments", .val (.strList [])), ("posts_read", .val (.strList [])),
        ("color", .val (.str "blue")), ("author", .val (.str "u1")),
        ("content", .val (.str "x")), ("creation_time", .val (.int 1)),
        ("viewed_by", .val (.strList []))]) :=
  ⟨by decide, by decide, by decide⟩

/-- **C5** (amended): inserting a node whose id is already present is not an
error and does not add an entry: the node-id sequence is unchanged and the
existing node's attribute dict is updated in place (`dict.update`
semantics: shared keys overwritten, others kept, new keys appended); and no
build ever fails with `DuplicateNodeError`, a class the code does not
define. -/
theorem c5_second_insert_updates (g : Graph) (id : PyVal) (a : Attrs)
    (u p c : List (PyVal × Rec)) (h : (lookupNode g id).isSome) :
    (addNode g id a).nodes.map (fun nd => nd.1) = g.nodes.map (fun nd => nd.1) ∧
    lookupNode (addNode g id a) id =
      (lookupNode g id).map (fun old => dictUpdate old a) ∧
    build_social_graph u p c ≠ .error .duplicateNodeError := by
  have hany : g.nodes.any (fun nd => nd.1 == id) = true := by
    unfold lookupNode at h
    cases hf : g.nodes.find? (fun nd => nd.1 == id) with
    | none => rw [hf] at h; cases h
    | some nd =>
      have hp := List.find?_some hf
      exact List.any_eq_true.mpr ⟨nd, List.mem_of_find?_eq_some hf, hp⟩
  have hcomp : ((fun nd : PyVal × Attrs => nd.1 == id) ∘
      (fun nd : PyVal × Attrs => if nd.1 == id then (nd.1, dictUpdate nd.2 a) else nd)) =
      (fun nd : PyVal × Attrs => nd.1 == id) := by
    funext nd
    by_cases hx : (nd.1 == id) = true <;> simp [Function.comp, hx]
  refine ⟨?_, ?_, ?_⟩
  · rw [addNode, if_pos hany]
    simp only [List.map_map]
    apply List.map_congr_left
    intro x hx
    by_cases hxid : (x.1 == id) = true <;> simp [Function.comp, hxid]
  · rw [addNode, if_pos hany]
    unfold lookupNode
    simp only [List.find?_map, hcomp]
    cases hf : g.nodes.find? (fun nd => nd.1 == id) with
    | none => rfl
    | some nd =>
      have hp := List.find?_some hf
      simp only at hp
      have heq : nd.1 = id := by simpa using hp
      simp [Option.map_map, Function.comp, heq]
  · intro hdup
    exact build_benign u p c .duplicateNodeError hdup

-- A single-node graph used to instantiate the update behaviour.
def gOneNode : Graph := Graph.mk [(.str "x", [("a", .val (.int 1))])] []

theorem c5_second_insert_updates_witness :
    (lookupNode gOneNode (.str "x")).isSome ∧
    (addNode gOneNode (.str "x") [("b", .val (.int 2))]).nodes.map (fun nd => nd.1) =
      gOneNode.nodes.map (fun nd => nd.1) ∧
    lookupNode (addNode gOneNode (.str "x") [("b", .val (.int 2))]) (.str "x") =
      (lookupNode gOneNode (.str "x")).map
        (fun old => dictUpdate old [("b", .val (.int 2))]) ∧
    build_social_graph [] [] [] ≠ .error .duplicateNodeError :=
  ⟨by decide,
   (c5_second_insert_updates gOneNode (.str "x") [("b", .val (.int 2))] [] [] []
     (by decide)).1,
   (c5_second_insert_updates gOneNode (.str "x") [("b", .val (.int 2))] [] [] []
     (by decide)).2.1,
   (c5_second_insert_updates gOneNode (.str "x") [("b", .val (.int 2))] [] [] []
     (by decide)).2.2⟩

-- A post record lacking the required `content` field.
def c8P : List (PyVal × Rec) := [(.str "p1", [("author", .val (.str "u1"))])]

/-- **C8** (counterexample): a post lacking `content` makes the build fail
with `KeyError("content")`, not with `MalformedEntityError` identifying the
field. -/
theorem c8_counterexample :
    build_social_graph [] c8P [] = .error (.keyError "content") ∧
    build_social_graph [] c8P [] ≠ .error (.malformedEntityError "content") :=
  ⟨by decide, by decide⟩

/-- **C8** (amended): for every input in which some post record lacks the
required `content` field, the build fails and is atomic — the result is an
error, never a graph, so no partial graph escapes — but the error is a
Python `KeyError` naming the missing field (or an earlier input error),
never the specification's `MalformedEntityError`, which the code does not
define. -/
theorem c8_missing_field (u p c : List (PyVal × Rec))
    (hex : ∃ entry ∈ p, entry.2.find? (fun f => f.1 == "content") = Option.none) :
    (∀ gout, build_social_graph u p c ≠ .ok gout) ∧
    (∀ fld, build_social_graph u p c ≠ .error (.malformedEntityError fld)) := by
  obtain ⟨entry, hmem, hfield⟩ := hex
  constructor
  · intro gout hok
    unfold build_social_graph at hok
    cases h1 : foldE addUser (Graph.mk [] []) u with
    | error e => rw [h1] at hok; cases hok
    | ok g1 =>
      rw [h1] at hok
      simp only [bindE] at hok
      cases h2 : foldE addPost g1 p with
      | error e => rw [h2] at hok; cases hok
      | ok g2 =>
        exact absurd h2 (foldE_no_ok addPost entry (addPost_fails entry hfield) p g1 g2 hmem)
  · intro fld hbad
    exact build_benign u p c (.malformedEntityError fld) hbad

theorem c8_missing_field_witness :
    (∃ entry ∈ c8P, entry.2.find? (fun f => f.1 == "content") = Option.none) ∧
    build_social_graph [] c8P [] ≠ .ok (Graph.mk [] []) ∧
    build_social_graph [] c8P [] ≠ .error (.malformedEntityError "content") :=
  ⟨by decide,
   (c8_missing_field [] c8P [] (by decide)).1 (Graph.mk [] []),
   (c8_missing_field [] c8P [] (by decide)).2 "content"⟩

/-! ## Placeholder nodes for dangling references -/

/-- Some node of `g` carries the id `x`. -/
def hasNode (g : Graph) (x : PyVal) : Prop := ∃ nd ∈ g.nodes, nd.1 = x

/-- Every node id outside `keys` carries an empty attribute dict (it can only
be an auto-created placeholder). -/
def sparse (keys : List PyVal) (g : Graph) : Prop :=
  ∀ nd ∈ g.nodes, nd.1 ∈ keys ∨ nd.2 = ([] : Attrs)

/-- Both endpoints of every edge are nodes of the graph. -/
def closedEdges (g : Graph) : Prop :=
  ∀ e ∈ g.edges, hasNode g e.1 ∧ hasNode g e.2.1

theorem hasNode_addNode (g : Graph) (id : PyVal) (a : Attrs) (x : PyVal)
    (h : hasNode g x) : hasNode (addNode g id a) x := by
  obtain ⟨nd, hmem, hx⟩ := h
  rw [addNode]
  split_ifs with hb
  · exact ⟨(if nd.1 == id then (nd.1, dictUpdate nd.2 a) else nd),
      List.mem_map_of_mem _ hmem,
      by split_ifs <;> simp [hx]⟩
  · exact ⟨nd, by simp [hmem], hx⟩

theorem hasNode_ensureNode (g : Graph) (id x : PyVal) (h : hasNode g x) :
    hasNode (ensureNode g id) x := by
  rw [ensureNode]
  obtain ⟨nd, hmem, hx⟩ := h
  split_ifs
  · exact ⟨nd, hmem, hx⟩
  · exact ⟨nd, by simp [hmem], hx⟩

theorem ensureNode_self (g : Graph) (id : PyVal) : hasNode (ensureNode g id) id := by
  rw [ensureNode]
  split_ifs with hb
  · obtain ⟨nd, hmem, hnd⟩ := List.any_eq_true.mp hb
    exact ⟨nd, hmem, by simpa using hnd⟩
  · exact ⟨(id, []), by simp, rfl⟩

theorem hasNode_addEdge (g : Graph) (u v x : PyVal) (ct : String)
    (h : hasNode g x) : hasNode (addEdge g u v ct) x := by
  have h2 : hasNode (ensureNode (ensureNode g u) v) x :=
    hasNode_ensureNode _ _ _ (hasNode_ensureNode _ _ _ h)
  simp only [addEdge]
  split_ifs <;> exact h2

theorem addEdge_ends (g : Graph) (u v : PyVal) (ct : String) :
    hasNode (addEdge g u v ct) u ∧ hasNode (addEdge g u v ct) v := by
  have hu : hasNode (ensureNode (ensureNode g u) v) u :=
    hasNode_ensureNode _ _ _ (ensureNode_self g u)
  have hv : hasNode (ensureNode (ensureNode g u) v) v := ensureNode_self _ v
  simp only [addEdge]
  constructor <;> split_ifs <;> first | exact hu | exact hv

theorem sparse_addNode (keys : List PyVal) (g : Graph) (id : PyVal) (a : Attrs)
    (hid : id ∈ keys) (h : sparse keys g) : sparse keys (addNode g id a) := by
  intro nd hmem
  rw [addNode] at hmem
  split_ifs at hmem with hb
  · obtain ⟨nd0, hmem0, heq⟩ := List.mem_map.mp hmem
    by_cases h2 : (nd0.1 == id) = true
    · rw [if_pos h2] at heq
      left
      rw [← heq]
      have : nd0.1 = id := by simpa using h2
      rw [this]
      exact hid
    · rw [if_neg h2] at heq
      exact heq ▸ h nd0 hmem0
  · rcases List.mem_append.mp hmem with h1 | h1
    · exact h nd h1
    · left
      rcases List.mem_singleton.mp h1 with rfl
      exact hid

theorem sparse_ensure (keys : List PyVal) (g : Graph) (id : PyVal)
    (h : sparse keys g) : sparse keys (ensureNode g id) := by
  intro nd hmem
  rw [ensureNode] at hmem
  split_ifs at hmem
  · exact h nd hmem
  · rcases List.mem_append.mp hmem with h1 | h1
    · exact h nd h1
    · right
      rcases List.mem_singleton.mp h1 with rfl
      rfl

theorem sparse_addEdge (keys : List PyVal) (g : Graph) (u v : PyVal) (ct : String)
    (h : sparse keys g) : sparse keys (addEdge g u v ct) := by
  have h2 : sparse keys (ensureNode (ensureNode g u) v) :=
    sparse_ensure _ _ _ (sparse_ensure _ _ _ h)
  intro nd hmem
  simp only [addEdge] at hmem
  split_ifs at hmem <;> exact h2 nd hmem

theorem closed_addNode (g : Graph) (id : PyVal) (a : Attrs)
    (h : closedEdges g) : closedEdges (addNode g id a) := by
  intro e he
  have hedges : (addNode g id a).edges = g.edges := by
    rw [addNode]; split_ifs <;> rfl
  rw [hedges] at he
  exact ⟨hasNode_addNode _ _ _ _ (h e he).1, hasNode_addNode _ _ _ _ (h e he).2⟩

theorem closed_ensure (g : Graph) (id : PyVal) (h : closedEdges g) :
    closedEdges (ensureNode g id) := by
  intro e he
  have hedges : (ensureNode g id).edges = g.edges := by
    rw [ensureNode]; split_ifs <;> rfl
  rw [hedges] at he
  exact ⟨hasNode_ensureNode _ _ _ (h e he).1, hasNode_ensureNode _ _ _ (h e he).2⟩

theorem closed_addEdge (g : Graph) (u v : PyVal) (ct : String)
    (h : closedEdges g) : closedEdges (addEdge g u v ct) := by
  have h2 : closedEdges (ensureNode (ensureNode g u) v) :=
    closed_ensure _ _ (closed_ensure _ _ h)
  have hu : hasNode (addEdge g u v ct) u := (addEdge_ends g u v ct).1
  have hv : hasNode (addEdge g u v ct) v := (addEdge_ends g u v ct).2
  have hnodes : (addEdge g u v ct).nodes = (ensureNode (ensureNode g u) v).nodes := by
    simp only [addEdge]; split_ifs <;> rfl
  intro e he
  have hhas : ∀ y, hasNode (ensureNode (ensureNode g u) v) y → hasNode (addEdge g u v ct) y := by
    intro y ⟨nd, hmem, hy⟩
    exact ⟨nd, hnodes ▸ hmem, hy⟩
  simp only [addEdge] at he
  split_ifs at he with hb
  · obtain ⟨e0, hmem0, heq⟩ := List.mem_map.mp he
    by_cases h3 : (e0.1 == u && e0.2.1 == v) = true
    · rw [if_pos h3] at heq
      subst heq
      exact ⟨hu, hv⟩
    · rw [if_neg h3] at heq
      subst heq
      exact ⟨hhas _ (h2 e0 hmem0).1, hhas _ (h2 e0 hmem0).2⟩
  · rcases List.mem_append.mp he with h1 | h1
    · exact ⟨hhas _ (h2 e h1).1, hhas _ (h2 e h1).2⟩
    · rcases List.mem_singleton.mp h1 with rfl
      exact ⟨hu, hv⟩

theorem bindE_ok {r : Except PyError α} {k : α → Except PyError β} {y : β}
    (h : bindE r k = .ok y) : ∃ x, r = .ok x ∧ k x = .ok y := by
  cases r with
  | ok x => exact ⟨x, rfl, h⟩
  | error e => cases h

theorem foldl_addEdge_inv (keys : List PyVal) (pid : PyVal) :
    ∀ (vs : List PyVal) (g : Graph), sparse keys g ∧ closedEdges g →
      sparse keys (vs.foldl (fun h v => addEdge h v pid "viewed") g) ∧
      closedEdges (vs.foldl (fun h v => addEdge h v pid "viewed") g) := by
  intro vs
  induction vs with
  | nil => intro g h; exact h
  | cons v rest ih =>
    intro g h
    exact ih _ ⟨sparse_addEdge _ _ _ _ _ h.1, closed_addEdge _ _ _ _ h.2⟩

theorem addUser_inv (keys : List PyVal) (g : Graph) (x : PyVal × Rec) (g2 : Graph)
    (hx : x.1 ∈ keys) (hok : addUser g x = .ok g2)
    (h : sparse keys g ∧ closedEdges g) : sparse keys g2 ∧ closedEdges g2 := by
  unfold addUser at hok
  obtain ⟨v1, _, hok⟩ := bindE_ok hok
  obtain ⟨v2, _, hok⟩ := bindE_ok hok
  obtain ⟨v3, _, hok⟩ := bindE_ok hok
  obtain ⟨v4, _, hok⟩ := bindE_ok hok
  obtain ⟨v5, _, hok⟩ := bindE_ok hok
  obtain ⟨v6, _, hok⟩ := bindE_ok hok
  obtain ⟨v7, _, hok⟩ := bindE_ok hok
  obtain ⟨v8, _, hok⟩ := bindE_ok hok
  injection hok with hok
  subst hok
  exact ⟨sparse_addNode _ _ _ _ hx h.1, closed_addNode _ _ _ h.2⟩

theorem addPost_inv (keys : List PyVal) (g : Graph) (x : PyVal × Rec) (g2 : Graph)
    (hx : x.1 ∈ keys) (hok : addPost g x = .ok g2)
    (h : sparse keys g ∧ closedEdges g) : sparse keys g2 ∧ closedEdges g2 := by
  simp only [addPost] at hok
  obtain ⟨author, _, hok⟩ := bindE_ok hok
  obtain ⟨content, _, hok⟩ := bindE_ok hok
  obtain ⟨ctime, _, hok⟩ := bindE_ok hok
  obtain ⟨comm, _, hok⟩ := bindE_ok hok
  obtain ⟨viewed, _, hok⟩ := bindE_ok hok
  obtain ⟨authorId, _, hok⟩ := bindE_ok hok
  obtain ⟨viewers, _, hok⟩ := bindE_ok hok
  injection hok with hok
  subst hok
  have h1 : sparse keys (addNode g x.1
      [("type", .val (.str "post")), ("author", author), ("content", content),
       ("creation_time", ctime), ("comments", comm), ("viewed_by", viewed),
       ("color", .val (.str "blue"))]) ∧
      closedEdges (addNode g x.1
      [("type", .val (.str "post")), ("author", author), ("content", content),
       ("creation_time", ctime), ("comments", comm), ("viewed_by", viewed),
       ("color", .val (.str "blue"))]) :=
    ⟨sparse_addNode _ _ _ _ hx h.1, closed_addNode _ _ _ h.2⟩
  exact foldl_addEdge_inv keys x.1 viewers _
    ⟨sparse_addEdge _ _ _ _ _ h1.1, closed_addEdge _ _ _ _ h1.2⟩

theorem addComment_inv (keys : List PyVal) (g : Graph) (x : PyVal × Rec) (g2 : Graph)
    (hx : x.1 ∈ keys) (hok : addComment g x = .ok g2)
    (h : sparse keys g ∧ closedEdges g) : sparse keys g2 ∧ closedEdges g2 := by
  simp only [addComment] at hok
  obtain ⟨author, _, hok⟩ := bindE_ok hok
  obtain ⟨post_id, _, hok⟩ := bindE_ok hok
  obtain ⟨content, _, hok⟩ := bindE_ok hok
  obtain ⟨ctime, _, hok⟩ := bindE_ok hok
  obtain ⟨authorId, _, hok⟩ := bindE_ok hok
  obtain ⟨postIdV, _, hok⟩ := bindE_ok hok
  injection hok with hok
  subst hok
  have h1 := And.intro (sparse_addNode keys g x.1
      [("type", .val (.str "comment")), ("author", author), ("post_id", post_id),
       ("content", content), ("creation_time", ctime),
       ("color", .val (.str "magenta"))] hx h.1)
    (closed_addNode g x.1
      [("type", .val (.str "comment")), ("author", author), ("post_id", post_id),
       ("content", content), ("creation_time", ctime),
       ("color", .val (.str "magenta"))] h.2)
  have h2 := And.intro (sparse_addEdge keys _ authorId x.1 "authored" h1.1)
    (closed_addEdge _ authorId x.1 "authored" h1.2)
  exact ⟨sparse_addEdge _ _ _ _ _ h2.1, closed_addEdge _ _ _ _ h2.2⟩

theorem foldE_inv {P : Graph → Prop} (f : Graph → PyVal × Rec → Except PyError Graph) :
    ∀ (l : List (PyVal × Rec)) (g g2 : Graph),
      (∀ h x h2, x ∈ l → f h x = .ok h2 → P h → P h2) →
      foldE f g l = .ok g2 → P g → P g2 := by
  intro l
  induction l with
  | nil =>
    intro g g2 hstep hok hP
    cases hok
    exact hP
  | cons x xs ih =>
    intro g g2 hstep hok hP
    simp only [foldE] at hok
    cases hf : f g x with
    | error e => rw [hf] at hok; cases hok
    | ok gm =>
      rw [hf] at hok
      exact ih gm g2 (fun h x2 h2 hm => hstep h x2 h2 (List.mem_cons_of_mem _ hm)) hok
        (hstep g x gm (List.mem_cons_self _ _) hf hP)

/-- The ids present in the three input collections. -/
def inputKeys (u p c : List (PyVal × Rec)) : List PyVal :=
  u.map (fun x => x.1) ++ p.map (fun x => x.1) ++ c.map (fun x => x.1)

/-- Every successfully built graph satisfies: nodes outside the input id
sets carry empty attribute dicts (placeholders), and every edge endpoint is
a node. -/
theorem build_inv (u p c : List (PyVal × Rec)) (g : Graph)
    (hok : build_social_graph u p c = .ok g) :
    sparse (inputKeys u p c) g ∧ closedEdges g := by
  unfold build_social_graph at hok
  obtain ⟨g1, h1, hok⟩ := bindE_ok hok
  obtain ⟨g2, h2, hok⟩ := bindE_ok hok
  have k0 : sparse (inputKeys u p c) (Graph.mk [] []) ∧ closedEdges (Graph.mk [] []) := by
    constructor
    · intro nd hmem; cases hmem
    · intro e he; cases he
  have k1 := foldE_inv addUser u (Graph.mk [] []) g1
    (fun h x h2 hm hok2 hP => addUser_inv _ _ _ _
      (List.mem_append.mpr (Or.inl (List.mem_append.mpr (Or.inl
        (List.mem_map_of_mem _ hm))))) hok2 hP)
    h1 k0
  have k2 := foldE_inv addPost p g1 g2
    (fun h x h2 hm hok2 hP => addPost_inv _ _ _ _
      (List.mem_append.mpr (Or.inl (List.mem_append.mpr (Or.inr
        (List.mem_map_of_mem _ hm))))) hok2 hP)
    h2 k1
  exact foldE_inv addComment c g2 g
    (fun h x h2 hm hok2 hP => addComment_inv _ _ _ _
      (List.mem_append.mpr (Or.inr (List.mem_map_of_mem _ hm))) hok2 hP)
    hok k2

theorem post_list_ids (g : Graph) (mode : String) (vI : ℚ) (pl : List (PyVal × ℚ))
    (h : post_list_for g mode vI = .ok pl) :
    pl.map (fun q => q.1) = (nodesByKind g "post").map (fun nd => nd.1) := by
  unfold post_list_for at h
  split_ifs at h
  all_goals exact scoreList_ids _ _ _ h

/-- **C9**: a dangling reference (an edge endpoint id absent from all three
input collections) does not fail the build: the endpoint is auto-created as
a placeholder node with an empty attribute dict (hence no `type` tag: the
`unknown` kind), every edge endpoint is a node of the built graph, and such
a placeholder is excluded from every kind-filtered node query — in
particular from the post nodes (`nodesByKind g "post"`), hence from
`filter_posts_by_graph` posts and from the ranking candidate list of every
mode. -/
theorem c9_placeholder (u p c : List (PyVal × Rec)) (g : Graph) (x : PyVal) (a : Attrs)
    (hok : build_social_graph u p c = .ok g)
    (hx : x ∉ inputKeys u p c)
    (hlook : lookupNode g x = some a) :
    a = [] ∧
    (∀ k, (x, a) ∉ nodesByKind g k) ∧
    (∀ e ∈ g.edges, (lookupNode g e.1).isSome ∧ (lookupNode g e.2.1).isSome) ∧
    (∀ mode vI pl, post_list_for g mode vI = .ok pl →
      x ∉ pl.map (fun q => q.1)) := by
  obtain ⟨hsp, hcl⟩ := build_inv u p c g hok
  have hmem : (x, a) ∈ g.nodes := by
    unfold lookupNode at hlook
    cases hf : g.nodes.find? (fun nd => nd.1 == x) with
    | none => rw [hf] at hlook; cases hlook
    | some nd =>
      rw [hf] at hlook
      injection hlook with h2
      have hpx := List.find?_some hf
      simp only at hpx
      have hx1 : nd.1 = x := by simpa using hpx
      have hnd : nd = (x, a) := by
        cases nd
        simp_all
      rw [← hnd]
      exact List.mem_of_find?_eq_some hf
  have ha : a = [] := by
    rcases hsp (x, a) hmem with h1 | h1
    · exact absurd h1 hx
    · exact h1
  have hSomeOf : ∀ y, hasNode g y → (lookupNode g y).isSome := by
    intro y hy
    obtain ⟨nd, hm, hndy⟩ := hy
    unfold lookupNode
    cases hf : g.nodes.find? (fun nd2 => nd2.1 == y) with
    | some nd2 => rfl
    | none =>
      exfalso
      rw [List.find?_eq_none] at hf
      exact hf nd hm (by simp [hndy])
  refine ⟨ha, ?_, ?_, ?_⟩
  · intro k hk
    have h2 := (List.mem_filter.mp hk).2
    rw [ha] at h2
    simp [pyGet] at h2
  · intro e he
    exact ⟨hSomeOf _ (hcl e he).1, hSomeOf _ (hcl e he).2⟩
  · intro mode vI pl hpl hmember
    rw [post_list_ids g mode vI pl hpl] at hmember
    obtain ⟨nd, hm, hndx⟩ := List.mem_map.mp hmember
    have hnd2 := List.mem_filter.mp hm
    rcases hsp nd hnd2.1 with h1 | h1
    · exact hx (hndx ▸ h1)
    · have h3 := hnd2.2
      rw [h1] at h3
      simp [pyGet] at h3

-- A post whose author id `"u1"` appears in no input collection.
def c9P : List (PyVal × Rec) :=
  [(.str "p1",
    [("author", .val (.str "u1")), ("content", .val (.str "hi")),
     ("creation_time", .val (.int 1)), ("comments", .val (.strList [])),
     ("viewed_by", .val (.strList []))])]

-- The graph built from `c9P` (the build succeeds; see the witness).
def c9G : Graph := (build_social_graph [] c9P []).toOption.getD (Graph.mk [] [])

theorem c9_placeholder_witness :
    build_social_graph [] c9P [] = .ok c9G ∧
    PyVal.str "u1" ∉ inputKeys [] c9P [] ∧
    lookupNode c9G (.str "u1") = some [] ∧
    (PyVal.str "u1", ([] : Attrs)) ∉ nodesByKind c9G "post" ∧
    (PyVal.str "u1", ([] : Attrs)) ∉ nodesByKind c9G "user" :=
  ⟨by decide, by decide, by decide,
   (c9_placeholder [] c9P [] c9G (.str "u1") [] (by decide) (by decide) (by decide)).2.1 "post",
   (c9_placeholder [] c9P [] c9G (.str "u1") [] (by decide) (by decide) (by decide)).2.1 "user"⟩

/-! ## The post filter against the specification's wording -/

/-- The author's attribute dict as the specification words it: resolve the
post's `author` attribute to its node; an absent author is treated as an
empty attribute map.  (The specification does not contemplate a dict-valued
author — the refinement theorem's hypotheses exclude it — so it also maps to
the empty dict here.) -/
def specAuthorAttrs (g : Graph) (a : Attrs) : Attrs :=
  match pyGet a "author" with
  | .val v => (lookupNode g v).getD []
  | .dict _ => []

/-- The claim's filter predicate on one post: every `authorAttributeFilter`
entry equals (case-sensitively) the author's corresponding attribute (an
empty filter matches everything), and at least one keyword occurs as a
case-insensitive substring of the content (an empty keyword list imposes no
constraint). -/
def specMatches (g : Graph) (kw : List String) (uf : List (String × PyObj))
    (a : Attrs) (s : String) : Bool :=
  (uf.all fun kv => pyGet (specAuthorAttrs g a) kv.1 == kv.2) &&
  (kw.isEmpty || kw.any fun keyword => lowerContains s keyword)

/-- The claim's specification of the filter output over a node list: the
content strings of the post-kind nodes, in order, that satisfy
`specMatches`. -/
def specFilterList (g : Graph) (kw : List String) (uf : List (String × PyObj))
    (l : List (PyVal × Attrs)) : List String :=
  (l.filter (fun nd => pyGet nd.2 "type" == PyObj.val (.str "post"))).filterMap
    (fun nd => match pyGet nd.2 "content" with
      | .val (.str s) => if specMatches g kw uf nd.2 s then some s else Option.none
      | _ => Option.none)

/-- The claim's specification of `filterPosts`: over the whole node list in
the graph's insertion order. -/
def specFilter (g : Graph) (kw : List String) (uf : List (String × PyObj)) : List String :=
  specFilterList g kw uf g.nodes

theorem length_filterMap_all_some {α β : Type} (f : α → Option β) :
    ∀ l : List α, (∀ x ∈ l, (f x).isSome) → (l.filterMap f).length = l.length := by
  intro l
  induction l with
  | nil => intro h; rfl
  | cons x xs ih =>
    intro h
    have hx := h x (List.mem_cons_self _ _)
    cases hf : f x with
    | none => rw [hf] at hx; cases hx
    | some b =>
      simp [List.filterMap_cons, hf, ih (fun y hy => h y (List.mem_cons_of_mem _ hy))]

theorem filterLoop_spec (g : Graph) (kw : List String) (uf : List (String × PyObj)) :
    ∀ l : List (PyVal × Attrs),
    (∀ nd ∈ l, pyGet nd.2 "type" = PyObj.val (.str "post") →
      (∃ s, pyGet nd.2 "content" = .val (.str s)) ∧
      (∃ v, pyGet nd.2 "author" = .val v)) →
    filterLoop g kw uf l =
      .ok ((specFilterList g kw uf l).map (fun s => PyObj.val (.str s))) := by
  intro l
  induction l with
  | nil => intro hp; rfl
  | cons nd rest ih =>
    intro hp
    have hrest := ih (fun nd2 hm => hp nd2 (List.mem_cons_of_mem _ hm))
    by_cases hty : pyGet nd.2 "type" = PyObj.val (.str "post")
    · obtain ⟨⟨s, hs⟩, ⟨v, hv⟩⟩ := hp nd (List.mem_cons_self _ _) hty
      have hauth : (match pyGet nd.2 "author" with
          | .dict _ => (Except.error .typeError : Except PyError Attrs)
          | .val v => .ok ((lookupNode g v).getD [])) =
          .ok (specAuthorAttrs g nd.2) := by
        rw [hv]
        simp [specAuthorAttrs, hv]
      by_cases huf : (uf.all fun kv => pyGet (specAuthorAttrs g nd.2) kv.1 == kv.2) = true
      · by_cases hkw : kw.isEmpty = true
        · have hkw2 : kw = [] := List.isEmpty_iff.mp hkw
          subst hkw2
          simp only [filterLoop, specFilterList, List.filter_cons, hty, bne_self_eq_false,
            Bool.false_eq_true, if_false, hauth, bindE, huf, Bool.not_true, Bool.and_false,
            List.filterMap_cons, hs, specMatches, Bool.and_true, List.isEmpty_nil,
            Bool.true_or, Bool.and_self, if_true, hrest]
          simp [specFilterList, hty, specMatches, huf, hs, hrest]
        · by_cases hany : (kw.any fun keyword => lowerContains s keyword) = true
          · simp only [filterLoop, hauth, bindE] at *
            simp [hty, huf, hkw, hany, hs, hrest, specFilterList, List.filter_cons,
              specMatches, bindE]
          · simp only [filterLoop, hauth, bindE] at *
            simp [hty, huf, hkw, hany, hs, hrest, specFilterList, List.filter_cons,
              specMatches, bindE]
      · have hne : uf.isEmpty = false := by
          cases uf with
          | nil => exact absurd rfl huf
          | cons a b => rfl
        simp only [filterLoop, hauth, bindE] at *
        simp [hty, huf, hne, hrest, specFilterList, List.filter_cons, specMatches, hs]
    · simp only [filterLoop]
      have hbne : (pyGet nd.2 "type" != PyObj.val (.str "post")) = true := by
        simpa using hty
      simp [hbne, hrest, specFilterList, List.filter_cons, beq_iff_eq, hty]

/-- **C6**: `filter_posts_by_graph` returns exactly the content strings of
the post-kind nodes, in the graph's insertion order, that satisfy the
specification's two predicates (author-attribute equality — empty filter
matches everything, absent author treated as an empty attribute map — and
case-insensitive keyword containment — empty list imposes no constraint);
in particular with no filters it returns every post's content and its
length is the post count.  Stated for graphs whose post nodes carry a
string `content` and a non-dict `author`, as every builder output does. -/
theorem c6_filter_spec (g : Graph) (kw : List String) (uf : List (String × PyObj))
    (hp : ∀ nd ∈ g.nodes, pyGet nd.2 "type" = PyObj.val (.str "post") →
      (∃ s, pyGet nd.2 "content" = .val (.str s)) ∧
      (∃ v, pyGet nd.2 "author" = .val v)) :
    filter_posts_by_graph g kw uf =
      .ok ((specFilter g kw uf).map (fun s => PyObj.val (.str s))) ∧
    (specFilter g [] []).length = (nodesByKind g "post").length := by
  constructor
  · exact filterLoop_spec g kw uf g.nodes hp
  · unfold specFilter specFilterList nodesByKind
    apply length_filterMap_all_some
    intro nd hnd
    have h1 := List.mem_filter.mp hnd
    have hty : pyGet nd.2 "type" = PyObj.val (.str "post") := by
      simpa using h1.2
    obtain ⟨⟨s, hs⟩, _⟩ := hp nd h1.1 hty
    rw [hs]
    simp [specMatches]

-- One user node and two post nodes, for instantiating the filter claim.
def c6G : Graph := Graph.mk
  [(.str "u1", [("type", .val (.str "user")), ("location", .val (.str "HNL"))]),
   (.str "p1", [("type", .val (.str "post")), ("author", .val (.str "u1")),
     ("content", .val (.str "Hello World"))]),
   (.str "p2", [("type", .val (.str "post")), ("author", .val (.str "u1")),
     ("content", .val (.str "bye"))])]
  []

theorem c6_filter_spec_witness :
    (∀ nd ∈ c6G.nodes, pyGet nd.2 "type" = PyObj.val (.str "post") →
      (∃ s, pyGet nd.2 "content" = .val (.str s)) ∧
      (∃ v, pyGet nd.2 "author" = .val v)) ∧
    specFilter c6G ["hello"] [("location", .val (.str "HNL"))] = ["Hello World"] ∧
    filter_posts_by_graph c6G ["hello"] [("location", .val (.str "HNL"))] =
      .ok ((specFilter c6G ["hello"] [("location", .val (.str "HNL"))]).map
        (fun s => PyObj.val (.str s))) ∧
    (specFilter c6G [] []).length = (nodesByKind c6G "post").length :=
  have hp6 : ∀ nd ∈ c6G.nodes, pyGet nd.2 "type" = PyObj.val (.str "post") →
      (∃ s, pyGet nd.2 "content" = .val (.str s)) ∧
      (∃ v, pyGet nd.2 "author" = .val v) := by
    intro nd hnd
    simp only [c6G, List.mem_cons, List.not_mem_nil, or_false] at hnd
    rcases hnd with rfl | rfl | rfl
    · intro hty; exact absurd hty (by decide)
    · intro _; exact ⟨⟨"Hello World", rfl⟩, ⟨.str "u1", rfl⟩⟩
    · intro _; exact ⟨⟨"bye", rfl⟩, ⟨.str "u1", rfl⟩⟩
  ⟨hp6, by decide,
   (c6_filter_spec c6G ["hello"] [("location", .val (.str "HNL"))] hp6).1,
   (c6_filter_spec c6G ["hello"] [("location", .val (.str "HNL"))] hp6).2⟩

/-! ## Incoming-edge counts of a built graph -/

/-- The incoming edges of the node `pid`. -/
def inEdges (g : Graph) (pid : PyVal) : List (PyVal × PyVal × String) :=
  g.edges.filter (fun e => e.2.1 == pid)

/-- The number of incoming edges of `pid` carrying connection type `ct`. -/
def inEdgeCount (g : Graph) (pid : PyVal) (ct : String) : Nat :=
  ((inEdges g pid).filter (fun e => e.2.2 == ct)).length

theorem addNode_edges (g : Graph) (id : PyVal) (a : Attrs) :
    (addNode g id a).edges = g.edges := by
  rw [addNode]
  split_ifs <;> rfl

theorem ensureNode_edges (g : Graph) (id : PyVal) :
    (ensureNode g id).edges = g.edges := by
  rw [ensureNode]
  split_ifs <;> rfl

theorem inEdges_addNode (g : Graph) (id : PyVal) (a : Attrs) (pid : PyVal) :
    inEdges (addNode g id a) pid = inEdges g pid := by
  unfold inEdges
  rw [addNode_edges]

theorem filter_map_replace (E : List (PyVal × PyVal × String)) (u v : PyVal)
    (ct : String) (pid : PyVal) (hne : v ≠ pid) :
    (E.map (fun e => if e.1 == u && e.2.1 == v then (u, v, ct) else e)).filter
      (fun e => e.2.1 == pid) = E.filter (fun e => e.2.1 == pid) := by
  induction E with
  | nil => rfl
  | cons e es ih =>
    simp only [List.map_cons, List.filter_cons]
    by_cases hc : (e.1 == u && e.2.1 == v) = true
    · have he2 : e.2.1 = v := by
        have := (Bool.and_eq_true _ _).mp hc
        simpa using this.2
      rw [if_pos hc]
      have h1 : ((u, v, ct).2.1 == pid) = false := by simpa using hne
      have h2 : (e.2.1 == pid) = false := by
        rw [he2]
        simpa using hne
      rw [if_neg (by simp [h1]), if_neg (by simp [h2])]
      exact ih
    · rw [if_neg hc]
      by_cases hd : (e.2.1 == pid) = true
      · rw [if_pos hd, if_pos hd, ih]
      · rw [if_neg hd, if_neg hd]
        exact ih

/-- `add_edge` towards a different target does not change the incoming edges
of `pid`. -/
theorem inEdges_addEdge_ne (g : Graph) (u v : PyVal) (ct : String) (pid : PyVal)
    (hne : v ≠ pid) : inEdges (addEdge g u v ct) pid = inEdges g pid := by
  unfold inEdges
  simp only [addEdge, ensureNode_edges]
  split_ifs with hb
  · exact filter_map_replace g.edges u v ct pid hne
  · rw [List.filter_append]
    have h1 : ((u, v, ct).2.1 == pid) = false := by simpa using hne
    simp [h1]

/-- `add_edge` towards `pid` from a source with no existing `(src, pid)`
edge appends one incoming edge. -/
theorem inEdges_addEdge_fresh (g : Graph) (u pid : PyVal) (ct : String)
    (hfresh : ∀ e ∈ inEdges g pid, e.1 ≠ u) :
    inEdges (addEdge g u pid ct) pid = inEdges g pid ++ [(u, pid, ct)] := by
  unfold inEdges at hfresh ⊢
  simp only [addEdge, ensureNode_edges]
  have hany : (g.edges.any (fun e => e.1 == u && e.2.1 == pid)) = false := by
    rw [List.any_eq_false]
    intro e he hc
    have hc2 := (Bool.and_eq_true _ _).mp hc
    have h1 : e.1 = u := by simpa using hc2.1
    have h2 : e.2.1 = pid := by simpa using hc2.2
    exact hfresh e (List.mem_filter.mpr ⟨he, by simp [h2]⟩) h1
  rw [if_neg (by simp [hany])]
  rw [List.filter_append]
  simp

theorem foldl_viewed_inEdges_ne (pid dst : PyVal) (hne : dst ≠ pid) :
    ∀ (vs : List PyVal) (g : Graph),
    inEdges (vs.foldl (fun h v => addEdge h v dst "viewed") g) pid = inEdges g pid := by
  intro vs
  induction vs with
  | nil => intro g; rfl
  | cons v rest ih =>
    intro g
    simp only [List.foldl_cons]
    rw [ih, inEdges_addEdge_ne _ _ _ _ _ hne]

/-- Appending fresh `viewed` edges, one per (pairwise distinct) viewer whose
id differs from every existing incoming source. -/
theorem foldl_viewed_inEdges (pid : PyVal) :
    ∀ (ws : List PyVal) (g : Graph) (base : List (PyVal × PyVal × String)),
    inEdges g pid = base →
    ws.Nodup →
    (∀ w ∈ ws, ∀ e ∈ base, e.1 ≠ w) →
    inEdges (ws.foldl (fun h v => addEdge h v pid "viewed") g) pid =
      base ++ ws.map (fun w => (w, pid, "viewed")) := by
  intro ws
  induction ws with
  | nil =>
    intro g base hbase _ _
    simpa using hbase
  | cons w rest ih =>
    intro g base hbase hnodup hfreshall
    simp only [List.foldl_cons]
    have hfresh : ∀ e ∈ inEdges g pid, e.1 ≠ w := by
      rw [hbase]
      intro e he
      exact hfreshall w (List.mem_cons_self _ _) e he
    have h1 := inEdges_addEdge_fresh g w pid "viewed" hfresh
    rw [hbase] at h1
    have h2 := ih (addEdge g w pid "viewed") (base ++ [(w, pid, "viewed")]) h1
      (List.Nodup.of_cons hnodup)
      (by
        intro w2 hw2 e he
        rcases List.mem_append.mp he with h3 | h3
        · exact hfreshall w2 (List.mem_cons_of_mem _ hw2) e h3
        · rcases List.mem_singleton.mp h3 with rfl
          have : w ≠ w2 := fun hc => (List.nodup_cons.mp hnodup).1 (hc ▸ hw2)
          simpa using this)
    rw [h2, List.append_assoc]
    rfl

theorem foldE_append (f : Graph → PyVal × Rec → Except PyError Graph) :
    ∀ (l1 l2 : List (PyVal × Rec)) (g : Graph),
    foldE f g (l1 ++ l2) = bindE (foldE f g l1) fun gm => foldE f gm l2 := by
  intro l1
  induction l1 with
  | nil => intro l2 g; rfl
  | cons x xs ih =>
    intro l2 g
    simp only [List.cons_append, foldE]
    cases hf : f g x with
    | error e => rfl
    | ok g2 => exact ih l2 g2

theorem addUser_edges (g : Graph) (x : PyVal × Rec) (g2 : Graph)
    (hok : addUser g x = .ok g2) : g2.edges = g.edges := by
  unfold addUser at hok
  obtain ⟨v1, _, hok⟩ := bindE_ok hok
  obtain ⟨v2, _, hok⟩ := bindE_ok hok
  obtain ⟨v3, _, hok⟩ := bindE_ok hok
  obtain ⟨v4, _, hok⟩ := bindE_ok hok
  obtain ⟨v5, _, hok⟩ := bindE_ok hok
  obtain ⟨v6, _, hok⟩ := bindE_ok hok
  obtain ⟨v7, _, hok⟩ := bindE_ok hok
  obtain ⟨v8, _, hok⟩ := bindE_ok hok
  injection hok with hok
  subst hok
  exact addNode_edges _ _ _

/-- Processing a post other than `pid` does not change the incoming edges of
`pid` (its `authored` and `viewed` edges all point at that other post). -/
theorem addPost_inEdges_ne (g : Graph) (x : PyVal × Rec) (g2 : Graph) (pid : PyVal)
    (hne : x.1 ≠ pid) (hok : addPost g x = .ok g2) :
    inEdges g2 pid = inEdges g pid := by
  simp only [addPost] at hok
  obtain ⟨author, _, hok⟩ := bindE_ok hok
  obtain ⟨content, _, hok⟩ := bindE_ok hok
  obtain ⟨ctime, _, hok⟩ := bindE_ok hok
  obtain ⟨comm, _, hok⟩ := bindE_ok hok
  obtain ⟨viewed, _, hok⟩ := bindE_ok hok
  obtain ⟨authorId, _, hok⟩ := bindE_ok hok
  obtain ⟨viewers, _, hok⟩ := bindE_ok hok
  injection hok with hok
  subst hok
  rw [foldl_viewed_inEdges_ne pid x.1 hne, inEdges_addEdge_ne _ _ _ _ _ hne,
    inEdges_addNode]

/-- The comments loop only appends `commented_on` edges to `pid`'s incoming
list, provided `pid` is no comment id and no comment id collides with an
existing incoming source. -/
theorem comments_fold_inEdges (pid : PyVal) (base : List (PyVal × PyVal × String)) :
    ∀ (cs : List (PyVal × Rec)) (g g2 : Graph) (extra : List (PyVal × PyVal × String)),
    foldE addComment g cs = .ok g2 →
    pid ∉ cs.map (fun x => x.1) →
    (cs.map (fun x => x.1)).Nodup →
    (∀ e ∈ base, ∀ ce ∈ cs, e.1 ≠ ce.1) →
    (∀ e ∈ extra, e.2.2 = "commented_on" ∧ ∀ ce ∈ cs, e.1 ≠ ce.1) →
    inEdges g pid = base ++ extra →
    ∃ extra2, inEdges g2 pid = base ++ extra2 ∧
      ∀ e ∈ extra2, e.2.2 = "commented_on" := by
  intro cs
  induction cs with
  | nil =>
    intro g g2 extra hok _ _ _ hextra hinv
    cases hok
    exact ⟨extra, hinv, fun e he => (hextra e he).1⟩
  | cons ce rest ih =>
    intro g g2 extra hok hpid hnodup hbase hextra hinv
    simp only [foldE] at hok
    cases hc : addComment g ce with
    | error e => rw [hc] at hok; cases hok
    | ok gm =>
    rw [hc] at hok
    simp only [addComment] at hc
    obtain ⟨author, _, hc⟩ := bindE_ok hc
    obtain ⟨post_id, _, hc⟩ := bindE_ok hc
    obtain ⟨content, _, hc⟩ := bindE_ok hc
    obtain ⟨ctime, _, hc⟩ := bindE_ok hc
    obtain ⟨authorId, _, hc⟩ := bindE_ok hc
    obtain ⟨postIdV, _, hc⟩ := bindE_ok hc
    injection hc with hc
    have hcene : ce.1 ≠ pid := by
      intro h
      apply hpid
      rw [← h]
      exact List.mem_map_of_mem (fun x : PyVal × Rec => x.1) (List.mem_cons_self ce rest)
    have hpid2 : pid ∉ rest.map (fun x => x.1) := by
      intro h
      exact hpid (by
        simp only [List.map_cons]
        exact List.mem_cons_of_mem _ h)
    have hnodup2 : (rest.map (fun x => x.1)).Nodup := by
      simp only [List.map_cons] at hnodup
      exact (List.nodup_cons.mp hnodup).2
    have hce_notin : ce.1 ∉ rest.map (fun x => x.1) := by
      simp only [List.map_cons] at hnodup
      exact (List.nodup_cons.mp hnodup).1
    have hb2 : inEdges (addEdge (addNode g ce.1
        [("type", .val (.str "comment")), ("author", author), ("post_id", post_id),
         ("content", content), ("creation_time", ctime),
         ("color", .val (.str "magenta"))]) authorId ce.1 "authored") pid =
        base ++ extra := by
      rw [inEdges_addEdge_ne _ _ _ _ _ hcene, inEdges_addNode, hinv]
    by_cases hpv : postIdV = pid
    · rw [hpv] at hc
      have hfresh : ∀ e ∈ inEdges (addEdge (addNode g ce.1
          [("type", .val (.str "comment")), ("author", author), ("post_id", post_id),
           ("content", content), ("creation_time", ctime),
           ("color", .val (.str "magenta"))]) authorId ce.1 "authored") pid,
          e.1 ≠ ce.1 := by
        rw [hb2]
        intro e he
        rcases List.mem_append.mp he with h1 | h1
        · exact hbase e h1 ce (List.mem_cons_self _ _)
        · exact (hextra e h1).2 ce (List.mem_cons_self _ _)
      have hb3 := inEdges_addEdge_fresh _ _ _ "commented_on" hfresh
      rw [hb2] at hb3
      rw [hc] at hb3
      refine ih gm g2 (extra ++ [(ce.1, pid, "commented_on")]) hok hpid2 hnodup2
        (fun e he ce2 hce2 => hbase e he ce2 (List.mem_cons_of_mem _ hce2))
        ?_ ?_
      · intro e he
        rcases List.mem_append.mp he with h1 | h1
        · exact ⟨(hextra e h1).1,
            fun ce2 hce2 => (hextra e h1).2 ce2 (List.mem_cons_of_mem _ hce2)⟩
        · rcases List.mem_singleton.mp h1 with rfl
          refine ⟨rfl, fun ce2 hce2 h2 => ?_⟩
          exact hce_notin (h2 ▸ List.mem_map_of_mem (fun x => x.1) hce2)
      · rw [hb3, List.append_assoc]
    · have hb3 : inEdges gm pid = base ++ extra := by
        rw [← hc, inEdges_addEdge_ne _ _ _ _ _ hpv, hb2]
      exact ih gm g2 extra hok hpid2 hnodup2
        (fun e he ce2 hce2 => hbase e he ce2 (List.mem_cons_of_mem _ hce2))
        (fun e he => ⟨(hextra e he).1,
          fun ce2 hce2 => (hextra e he).2 ce2 (List.mem_cons_of_mem _ hce2)⟩)
        hb3

-- A post whose author also appears in its `viewed_by` list.
def c4P : List (PyVal × Rec) :=
  [(.str "p1",
    [("author", .val (.str "u1")), ("content", .val (.str "hello")),
     ("creation_time", .val (.int 1)), ("comments", .val (.strList [])),
     ("viewed_by", .val (.strList ["u1"]))])]

/-- **C4** (counterexample): when a post's author also appears in its
`viewed_by` list, the `viewed` edge overwrites the `authored` edge (a
`DiGraph` keeps at most one edge per ordered pair), so the post has zero
incoming `authored` edges instead of exactly one. -/
theorem c4_counterexample :
    (build_social_graph [] c4P []).map
      (fun g => (inEdgeCount g (.str "p1") "authored",
        inEdgeCount g (.str "p1") "viewed")) = .ok (0, 1) ∧
    (0 : Nat) ≠ 1 :=
  ⟨by decide, by decide⟩

/-- **C4** (amended): parallel edges between the same ordered pair are NOT
kept — `add_edge` on an existing `(src, dst)` pair overwrites the edge — so
the claimed counts hold exactly when no overwrite hits the post: if the
post's id is unique among posts, its `viewed_by` has no repeats, its author
is not among its viewers, and no comment id collides with its author or a
viewer (nor with the post id), then the post has exactly one incoming
`authored` edge (from its author) and exactly `len(viewedByIds)` incoming
`viewed` edges, one per viewer. -/
theorem c4_edge_counts (u p c : List (PyVal × Rec)) (g : Graph)
    (pid : PyVal) (r : Rec) (av : PyVal) (vs : List String)
    (hok : build_social_graph u p c = .ok g)
    (hmem : (pid, r) ∈ p)
    (hpnodup : (p.map (fun x => x.1)).Nodup)
    (hcnodup : (c.map (fun x => x.1)).Nodup)
    (hauthor : getF r "author" = .ok (.val av))
    (hviewed : getF r "viewed_by" = .ok (.val (.strList vs)))
    (hvnodup : (vs.map PyVal.str).Nodup)
    (havv : av ∉ vs.map PyVal.str)
    (hpidc : pid ∉ c.map (fun x => x.1))
    (hcids : ∀ ce ∈ c, ce.1 ≠ av ∧ ce.1 ∉ vs.map PyVal.str) :
    inEdgeCount g pid "authored" = 1 ∧ inEdgeCount g pid "viewed" = vs.length := by
  unfold build_social_graph at hok
  obtain ⟨g1, hU, hRest⟩ := bindE_ok hok
  obtain ⟨g2, hPfold, hCom⟩ := bindE_ok hRest
  have hg1edges : g1.edges = [] :=
    @foldE_inv (fun h => h.edges = []) addUser u (Graph.mk [] []) g1
      (fun h x h2 _ hok2 hPh => by
        show h2.edges = []
        rw [addUser_edges h x h2 hok2]
        exact hPh) hU rfl
  have hg1in : inEdges g1 pid = [] := by
    unfold inEdges
    rw [hg1edges]
    rfl
  obtain ⟨pre, suf, rfl⟩ := List.append_of_mem hmem
  have hsplit : pid ∉ pre.map (fun x => x.1) ∧ pid ∉ suf.map (fun x => x.1) := by
    rw [List.map_append, List.map_cons] at hpnodup
    have h3 := List.nodup_append.mp hpnodup
    constructor
    · intro hmem2
      exact h3.2.2 hmem2 (List.mem_cons_self _ _)
    · exact (List.nodup_cons.mp h3.2.1).1
  rw [foldE_append] at hPfold
  obtain ⟨gA, hPre, hPfold⟩ := bindE_ok hPfold
  simp only [foldE] at hPfold
  cases hStep : addPost gA (pid, r) with
  | error e => rw [hStep] at hPfold; cases hPfold
  | ok gB =>
  rw [hStep] at hPfold
  have hgAin : inEdges gA pid = [] :=
    @foldE_inv (fun h => inEdges h pid = []) addPost pre g1 gA
      (fun h x h2 hm hok2 hPh => by
        have hxne : x.1 ≠ pid := by
          intro hcEq
          exact hsplit.1 (hcEq ▸ List.mem_map_of_mem (fun y : PyVal × Rec => y.1) hm)
        show inEdges h2 pid = []
        rw [addPost_inEdges_ne h x h2 pid hxne hok2]
        exact hPh)
      hPre hg1in
  simp only [addPost] at hStep
  obtain ⟨author, ha1, hStep⟩ := bindE_ok hStep
  obtain ⟨content, _, hStep⟩ := bindE_ok hStep
  obtain ⟨ctime, _, hStep⟩ := bindE_ok hStep
  obtain ⟨comm, _, hStep⟩ := bindE_ok hStep
  obtain ⟨viewed, hv1, hStep⟩ := bindE_ok hStep
  obtain ⟨authorId, ha2, hStep⟩ := bindE_ok hStep
  obtain ⟨viewers, hv2, hStep⟩ := bindE_ok hStep
  injection hStep with hStep
  have ha1r : getF r "author" = .ok author := ha1
  have hv1r : getF r "viewed_by" = .ok viewed := hv1
  have hav : author = .val av := by
    rw [hauthor] at ha1r
    injection ha1r with h
    exact h.symm
  subst hav
  have h5 : (Except.ok av : Except PyError PyVal) = .ok authorId := ha2
  injection h5 with h5b
  rw [← h5b] at hStep
  have hvv : viewed = .val (.strList vs) := by
    rw [hviewed] at hv1r
    injection hv1r with h
    exact h.symm
  subst hvv
  have h6 : (Except.ok (vs.map PyVal.str) : Except PyError (List PyVal)) = .ok viewers := hv2
  injection h6 with h6b
  rw [← h6b] at hStep
  have hStep2 : (vs.map PyVal.str).foldl (fun h viewer => addEdge h viewer pid "viewed")
      (addEdge (addNode gA pid
        [("type", .val (.str "post")), ("author", .val av), ("content", content),
         ("creation_time", ctime), ("comments", comm),
         ("viewed_by", .val (.strList vs)), ("color", .val (.str "blue"))])
        av pid "authored") = gB := hStep
  have hb0 : inEdges (addNode gA pid
      [("type", .val (.str "post")), ("author", .val av), ("content", content),
       ("creation_time", ctime), ("comments", comm),
       ("viewed_by", .val (.strList vs)), ("color", .val (.str "blue"))]) pid = [] := by
    rw [inEdges_addNode, hgAin]
  have hb1 : inEdges (addEdge (addNode gA pid
      [("type", .val (.str "post")), ("author", .val av), ("content", content),
       ("creation_time", ctime), ("comments", comm),
       ("viewed_by", .val (.strList vs)), ("color", .val (.str "blue"))])
      av pid "authored") pid = [(av, pid, "authored")] := by
    have hfresh : ∀ e ∈ inEdges (addNode gA pid
        [("type", .val (.str "post")), ("author", .val av), ("content", content),
         ("creation_time", ctime), ("comments", comm),
         ("viewed_by", .val (.strList vs)), ("color", .val (.str "blue"))]) pid,
        e.1 ≠ av := by
      rw [hb0]
      intro e he
      cases he
    have h6 := inEdges_addEdge_fresh _ av pid "authored" hfresh
    rw [hb0] at h6
    simpa using h6
  have hbB : inEdges gB pid =
      [(av, pid, "authored")] ++ (vs.map PyVal.str).map (fun w => (w, pid, "viewed")) := by
    rw [← hStep2]
    exact foldl_viewed_inEdges pid (vs.map PyVal.str) _ [(av, pid, "authored")] hb1 hvnodup
      (fun w hw e he => by
        rcases List.mem_singleton.mp he with rfl
        intro hcEq
        have hcEq2 : av = w := hcEq
        rw [← hcEq2] at hw
        exact havv hw)
  have hg2in : inEdges g2 pid =
      [(av, pid, "authored")] ++ (vs.map PyVal.str).map (fun w => (w, pid, "viewed")) :=
    @foldE_inv (fun h => inEdges h pid =
        [(av, pid, "authored")] ++ (vs.map PyVal.str).map (fun w => (w, pid, "viewed")))
      addPost suf gB g2
      (fun h x h2 hm hok2 hPh => by
        have hxne : x.1 ≠ pid := by
          intro hcEq
          exact hsplit.2 (hcEq ▸ List.mem_map_of_mem (fun y : PyVal × Rec => y.1) hm)
        show inEdges h2 pid =
          [(av, pid, "authored")] ++ (vs.map PyVal.str).map (fun w => (w, pid, "viewed"))
        rw [addPost_inEdges_ne h x h2 pid hxne hok2]
        exact hPh)
      hPfold hbB
  obtain ⟨extra2, hfin, hext⟩ := comments_fold_inEdges pid
    ([(av, pid, "authored")] ++ (vs.map PyVal.str).map (fun w => (w, pid, "viewed")))
    c g2 g [] hCom hpidc hcnodup
    (by
      intro e he ce hce
      rcases List.mem_append.mp he with h1 | h1
      · rcases List.mem_singleton.mp h1 with rfl
        exact fun hcEq => (hcids ce hce).1 hcEq.symm
      · obtain ⟨w, hw, rfl⟩ := List.mem_map.mp h1
        exact fun hcEq => (hcids ce hce).2 (hcEq ▸ hw))
    (fun e he => absurd he (List.not_mem_nil e))
    (by rw [List.append_nil]; exact hg2in)
  constructor
  · rw [inEdgeCount, hfin, List.filter_append, List.filter_append]
    have hm1 : ((vs.map PyVal.str).map (fun w => (w, pid, "viewed"))).filter
        (fun e => e.2.2 == "authored") = [] := by
      rw [List.filter_eq_nil_iff]
      intro e he
      obtain ⟨w, hw, rfl⟩ := List.mem_map.mp he
      simp
    have hm2 : extra2.filter (fun e => e.2.2 == "authored") = [] := by
      rw [List.filter_eq_nil_iff]
      intro e he
      simp [hext e he]
    rw [hm1, hm2]
    simp
  · rw [inEdgeCount, hfin, List.filter_append, List.filter_append]
    have hm1 : ([(av, pid, "authored")]).filter (fun e => e.2.2 == "viewed") = [] := by
      simp
    have hm2 : ((vs.map PyVal.str).map (fun w => (w, pid, "viewed"))).filter
        (fun e => e.2.2 == "viewed") =
        (vs.map PyVal.str).map (fun w => (w, pid, "viewed")) := by
      rw [List.filter_eq_self]
      intro e he
      obtain ⟨w, hw, rfl⟩ := List.mem_map.mp he
      simp
    have hm3 : extra2.filter (fun e => e.2.2 == "viewed") = [] := by
      rw [List.filter_eq_nil_iff]
      intro e he
      simp [hext e he]
    rw [hm1, hm2, hm3]
    simp

-- A post with two distinct viewers and a comment by a fourth id.
def c4P2 : List (PyVal × Rec) :=
  [(.str "p1",
    [("author", .val (.str "u1")), ("content", .val (.str "hello")),
     ("creation_time", .val (.int 1)), ("comments", .val (.strList ["c1"])),
     ("viewed_by", .val (.strList ["v1", "v2"]))])]

def c4C2 : List (PyVal × Rec) :=
  [(.str "c1",
    [("author", .val (.str "u2")), ("post_id", .val (.str "p1")),
     ("content", .val (.str "nice")), ("creation_time", .val (.int 2))])]

def c4G2 : Graph := (build_social_graph [] c4P2 c4C2).toOption.getD (Graph.mk [] [])

theorem c4_edge_counts_witness :
    build_social_graph [] c4P2 c4C2 = .ok c4G2 ∧
    inEdgeCount c4G2 (.str "p1") "authored" = 1 ∧
    inEdgeCount c4G2 (.str "p1") "viewed" = 2 :=
  ⟨by decide,
   (c4_edge_counts [] c4P2 c4C2 c4G2 (.str "p1")
     [("author", .val (.str "u1")), ("content", .val (.str "hello")),
      ("creation_time", .val (.int 1)), ("comments", .val (.strList ["c1"])),
      ("viewed_by", .val (.strList ["v1", "v2"]))]
     (.str "u1") ["v1", "v2"]
     (by decide) (by decide) (by decide) (by decide) (by decide) (by decide)
     (by decide) (by decide) (by decide) (by decide)).1,
   (c4_edge_counts [] c4P2 c4C2 c4G2 (.str "p1")
     [("author", .val (.str "u1")), ("content", .val (.str "hello")),
      ("creation_time", .val (.int 1)), ("comments", .val (.strList ["c1"])),
      ("viewed_by", .val (.strList ["v1", "v2"]))]
     (.str "u1") ["v1", "v2"]
     (by decide) (by decide) (by decide) (by decide) (by decide) (by decide)
     (by decide) (by decide) (by decide) (by decide)).2⟩

end SMG
